import Mathlib

/-!
A verification development for the screenshot-annotation module
`src/open-r1-multimodal/src/open_r1/utils/action_annotation.py`.

Modelling conventions.  Python strings are `List Char` (the entry point takes a
`String` and works on its character list).  Python float values are exact
rationals; every IEEE double is a rational, and none of the verified
properties depends on rounding.  The transcendental library functions
`math.atan2`, `math.cos`, `math.sin` and the constant `math.pi` are an oracle
structure `Trig`; no verified property depends on their values.  A PIL image
is its pixel dimensions together with the list of drawing primitives issued
against it; PIL mutates the image in place and also returns it, which the
embedding renders by threading the image value.  A caught Python exception
surfaces as a `false` success flag exactly where the source catches it, and
`annotate_action`'s possible `UnboundLocalError` (reading `success` when no
line was recognized) is the `none` of its `Option` result.
-/

/-- Python regex `\w` on ASCII input: letters, digits and underscore. -/
def isWordChar (c : Char) : Bool := c.isAlphanum || c = '_'

/-- Python regex `\s` on ASCII input: space, tab, newline, carriage return,
vertical tab and form feed. -/
def isSpaceChar (c : Char) : Bool :=
  c = ' ' || c = '\t' || c = '\n' || c = '\r' || c = Char.ofNat 11 || c = Char.ofNat 12

/-- Python regex `\d` on ASCII input. -/
def isDigitChar (c : Char) : Bool := c.isDigit

/-- The characters of a string literal. -/
def chars (s : String) : List Char := s.toList

/-- Greedy skip of `\s*`.  Determinizing the star is sound at every use site:
no token that follows a `\s*` in the embedded patterns can match a space. -/
def skipSpaces (cs : List Char) : List Char := cs.dropWhile isSpaceChar

/-- One drawing primitive issued against the PIL drawing context.  Ellipses
carry their integer bounding box; lines carry their float endpoints; `text` is
a `draw.text` call with a literal label, and `scrollText` is the scroll
label's f-string call, recorded by the numeric argument it formats. -/
inductive DrawOp where
  | ellipse (x0 y0 x1 y1 : ℤ) (outline : Option String) (fill : Option String) (lineWidth : ℕ)
  | line (x0 y0 x1 y1 : ℚ) (fill : String) (lineWidth : ℕ)
  | text (x y : ℤ) (label : String) (fill : String) (strokeFill : String) (strokeWidth : ℕ)
  | scrollText (x y : ℤ) (value : ℚ) (fill : String) (strokeFill : String) (strokeWidth : ℕ)
  deriving DecidableEq

/-- A PIL image: fixed pixel dimensions plus the primitives drawn onto it. -/
structure Image where
  width : ℕ
  height : ℕ
  ops : List DrawOp
  deriving DecidableEq

/-- Oracle for the IEEE-float library functions `math.atan2`, `math.cos`,
`math.sin` and the float constant `math.pi` used by `annotate_scroll`. -/
structure Trig where
  atan2 : ℚ → ℚ → ℚ
  cos : ℚ → ℚ
  sin : ℚ → ℚ
  pi : ℚ

/-- A concrete oracle, for evaluating the embedding at concrete inputs. -/
def trivialTrig : Trig := ⟨fun _ _ => 0, fun _ => 0, fun _ => 0, 0⟩

/-- Python `int()` applied to a float value: truncation toward zero. -/
def pyInt (q : ℚ) : ℤ := if 0 ≤ q then ⌊q⌋ else ⌈q⌉

/-- Value of a digit string in positional notation. -/
def digitsValN (ds : List Char) : ℕ := ds.foldl (fun a c => 10 * a + (c.toNat - 48)) 0

/-- The rational value of a parsed decimal numeral: sign, integer part,
fractional part. -/
def ratOfParts (neg : Bool) (ip fp : List Char) : ℚ :=
  (if neg then -1 else 1) * ((digitsValN ip : ℚ) + (digitsValN fp : ℚ) / 10 ^ fp.length)

/-- Python `float()` restricted to plain decimal numerals
`[+-]? (digits | digits . digits* | . digits+)` — the only shapes the call
sites' regular expressions can capture; `none` models the `ValueError` raised
on any other string. -/
def pyFloat? (cs : List Char) : Option ℚ :=
  let neg := cs.head? = some '-'
  let cs1 := if cs.head? = some '-' || cs.head? = some '+' then cs.tail else cs
  let ip := cs1.takeWhile isDigitChar
  match cs1.dropWhile isDigitChar with
  | [] => if ip = [] then none else some (ratOfParts neg ip [])
  | c :: r2 =>
    if c = '.' then
      let fp := r2.takeWhile isDigitChar
      if r2.dropWhile isDigitChar = [] then
        if ip = [] && fp = [] then none else some (ratOfParts neg ip fp)
      else none
    else none

/-- `float()` of a regex-captured numeral (always well formed at the call
sites), defaulting to `0` to stay total. -/
def pyFloatD (cs : List Char) : ℚ := (pyFloat? cs).getD 0

/-- Backtracking alternatives of greedy `\d*` at the head of `cs`, longest
first, as (matched, rest) pairs. -/
def starDigitAlts (cs : List Char) : List (List Char × List Char) :=
  ((List.range ((cs.takeWhile isDigitChar).length + 1)).reverse).map
    fun k => (cs.take k, cs.drop k)

/-- Backtracking alternatives of greedy `\d+`: as `starDigitAlts` but
nonempty. -/
def plusDigitAlts (cs : List Char) : List (List Char × List Char) :=
  (starDigitAlts cs).filter fun p => !p.1.isEmpty

/-- Backtracking alternatives of greedy `[-+]?`. -/
def optSignAlts (cs : List Char) : List (List Char × List Char) :=
  match cs with
  | c :: rest => if c = '-' || c = '+' then [([c], rest), ([], c :: rest)] else [([], cs)]
  | [] => [([], [])]

/-- Backtracking alternatives of greedy `\.?`. -/
def optDotAlts (cs : List Char) : List (List Char × List Char) :=
  match cs with
  | c :: rest => if c = '.' then [([c], rest), ([], c :: rest)] else [([], cs)]
  | [] => [([], [])]

/-- All ways the regex `[-+]?\d*\.?\d+` can match a prefix of `cs`, as
(matched, rest) pairs in backtracking priority order. -/
def numAlts (cs : List Char) : List (List Char × List Char) :=
  (optSignAlts cs).flatMap fun s1 =>
  (starDigitAlts s1.2).flatMap fun s2 =>
  (optDotAlts s2.2).flatMap fun s3 =>
  (plusDigitAlts s3.2).map fun s4 =>
  (s1.1 ++ s2.1 ++ s3.1 ++ s4.1, s4.2)

/-- Match a literal, returning the rest of the input. -/
def litM (lit cs : List Char) : Option (List Char) :=
  if lit.isPrefixOf cs then some (cs.drop lit.length) else none

/-- Anchored matcher for the `extract_x_y` regular expression
`pyautogui\.(?:click|moveTo)\s*\(\s*x\s*=\s*([-+]?\d*\.?\d+)\s*,\s*y\s*=\s*([-+]?\d*\.?\d+)\s*\)`,
returning the two captured groups.  The alternation is deterministic (the two
literals differ at their first character), and each number's backtracking
alternatives are tried against the full continuation, leftmost-longest
first. -/
def matchXYAt (cs : List Char) : Option (List Char × List Char) :=
  match litM (chars "pyautogui.") cs with
  | none => none
  | some r0 =>
    match (match litM (chars "click") r0 with
           | some r => some r
           | none => litM (chars "moveTo") r0) with
    | none => none
    | some r1 =>
      match skipSpaces r1 with
      | '(' :: r3 =>
        match skipSpaces r3 with
        | 'x' :: r5 =>
          match skipSpaces r5 with
          | '=' :: r7 =>
            (numAlts (skipSpaces r7)).findSome? fun n1 =>
              match skipSpaces n1.2 with
              | ',' :: r10 =>
                match skipSpaces r10 with
                | 'y' :: r12 =>
                  match skipSpaces r12 with
                  | '=' :: r14 =>
                    (numAlts (skipSpaces r14)).findSome? fun n2 =>
                      match skipSpaces n2.2 with
                      | ')' :: _ => some (n1.1, n2.1)
                      | _ => none
                  | _ => none
                | _ => none
              | _ => none
          | _ => none
        | _ => none
      | _ => none

/-- The scanning phase of `re.search`: try the anchored match at every start
position, leftmost first. -/
def searchXY : List Char → Option (List Char × List Char)
  | [] => none
  | c :: rest =>
    match matchXYAt (c :: rest) with
    | some r => some r
    | none => searchXY rest

/-- `extract_x_y` (action_annotation.py, lines 104-117): the two coordinate
captures of a click/moveTo action line; the source's `(None, None)` parse miss
is `none`. -/
def extract_x_y (action : List Char) : Option (List Char × List Char) :=
  searchXY action

/-- Deterministic anchored matcher for `-?\d+\.\d+`: greedy matching needs no
backtracking here because each `\d+` is followed by a token no digit can
match. -/
def matchNumKv (cs : List Char) : Option (List Char × List Char) :=
  let sgn : List Char := if cs.head? = some '-' then ['-'] else []
  let r0 := if cs.head? = some '-' then cs.tail else cs
  let d1 := r0.takeWhile isDigitChar
  if d1 = [] then none
  else
    match r0.dropWhile isDigitChar with
    | [] => none
    | c :: r1 =>
      if c = '.' then
        let d2 := r1.takeWhile isDigitChar
        if d2 = [] then none
        else some (sgn ++ d1 ++ '.' :: d2, r1.dropWhile isDigitChar)
      else none

/-- Anchored matcher for `(\w+)\s*=\s*(-?\d+\.\d+)`.  The greedy `\w+` needs
no backtracking: neither a space nor `=` is a word character. -/
def matchKvAt (cs : List Char) : Option ((List Char × List Char) × List Char) :=
  let key := cs.takeWhile isWordChar
  if key = [] then none
  else
    match skipSpaces (cs.dropWhile isWordChar) with
    | [] => none
    | c :: r2 =>
      if c = '=' then
        match matchNumKv (skipSpaces r2) with
        | some (v, rest) => some ((key, v), rest)
        | none => none
      else none

/-- `re.findall` scanning loop for the key/value pattern: at each position try
the anchored match; on success continue after the match, otherwise advance one
character.  The fuel only bounds recursion: any fuel above the input length
gives the same result (`findAllKvAux_fuel`). -/
def findAllKvAux : ℕ → List Char → List (List Char × List Char)
  | 0, _ => []
  | _ + 1, [] => []
  | fuel + 1, c :: rest =>
    match matchKvAt (c :: rest) with
    | some (kv, restAfter) => kv :: findAllKvAux fuel restAfter
    | none => findAllKvAux fuel rest

/-- `re.findall(r"(\w+)\s*=\s*(-?\d+\.\d+)", action)`. -/
def findAllKv (cs : List Char) : List (List Char × List Char) :=
  findAllKvAux (cs.length + 1) cs

/-- Scanning loop for the bare-number pattern, as `findAllKvAux`. -/
def findAllNumAux : ℕ → List Char → List (List Char)
  | 0, _ => []
  | _ + 1, [] => []
  | fuel + 1, c :: rest =>
    match matchNumKv (c :: rest) with
    | some (cap, restAfter) => cap :: findAllNumAux fuel restAfter
    | none => findAllNumAux fuel rest

/-- `re.findall(r"-?\d+\.\d+", action)`. -/
def findAllNum (cs : List Char) : List (List Char) :=
  findAllNumAux (cs.length + 1) cs

/-- `dict(pairs).get(k)`: the value of the last pair whose key is `k`. -/
def dictGet (pairs : List (List Char × List Char)) (k : List Char) : Option (List Char) :=
  (pairs.reverse.find? fun p => p.1 == k).map Prod.snd

/-- `convert_scroll` (action_annotation.py, lines 28-77). -/
def convert_scroll (action : List Char) (screenshot : Image) : ℚ × ℚ :=
  let kvPairs := findAllKv action
  if kvPairs ≠ [] then
    let vertical : ℚ :=
      match dictGet kvPairs (chars "page") with
      | some s => pyFloatD s
      | none => 0
    let y : ℚ := -vertical * screenshot.height
    let horizontalStr :=
      match dictGet kvPairs (chars "horizontal") with
      | some s => some s
      | none => dictGet kvPairs (chars "h")
    let x : ℚ :=
      match horizontalStr with
      | some s => pyFloatD s * screenshot.width
      | none => 0
    (x, y)
  else
    match findAllNum action with
    | [] => (0, 0)
    | n0 :: rest =>
      let y : ℚ := -(pyFloatD n0) * screenshot.height
      let x : ℚ :=
        match rest with
        | [] => 0
        | n1 :: _ => pyFloatD n1 * screenshot.width
      (x, y)

/-- `annotate_click` (action_annotation.py, lines 120-170).  The two `float()`
conversions run before any drawing; a `None` input (`TypeError`) or a
malformed string (`ValueError`) is caught by the `except` and the image is
returned untouched with a `false` flag.  With finite parsed coordinates the
four ellipse calls and the guarded label call cannot raise, so the flag is
`true`. -/
def annotate_click (x y : Option (List Char)) (image : Image) : Image × Bool :=
  match x, y with
  | some xs, some ys =>
    match pyFloat? xs, pyFloat? ys with
    | some xv, some yv =>
      let radius : ℕ := min image.width image.height / 15
      let px : ℤ := pyInt (xv * image.width)
      let py : ℤ := pyInt (yv * image.height)
      (⟨image.width, image.height, image.ops ++
        ([DrawOp.ellipse (px - (radius + 2)) (py - (radius + 2))
            (px + (radius + 2)) (py + (radius + 2)) (some "black") none 4,
          DrawOp.ellipse (px - radius) (py - radius) (px + radius) (py + radius)
            (some "red") none 2,
          DrawOp.ellipse (px - 4) (py - 4) (px + 4) (py + 4) (some "black") none 4,
          DrawOp.ellipse (px - 2) (py - 2) (px + 2) (py + 2) none (some "red") 1] ++
         (if px + 10 < (image.width : ℤ) ∧ py + 10 < (image.height : ℤ) then
            [DrawOp.text (px + 10) (py + 10) "Click" "red" "black" 2]
          else if px - 10 > 0 ∧ py - 10 > 0 then
            [DrawOp.text (px - 10) (py - 10) "Click" "red" "black" 2]
          else if px + 10 < (image.width : ℤ) ∧ py - 10 > 0 then
            [DrawOp.text (px + 10) (py - 10) "Click" "red" "black" 2]
          else if px - 10 > 0 ∧ py + 10 < (image.height : ℤ) then
            [DrawOp.text (px - 10) (py + 10) "Click" "red" "black" 2]
          else []))⟩, true)
    | _, _ => (image, false)
  | _, _ => (image, false)

/-- `annotate_move` (action_annotation.py, lines 173-220): a verbatim copy of
`annotate_click` in the source, down to `color = "red"`, differing only in the
label string. -/
def annotate_move (x y : Option (List Char)) (image : Image) : Image × Bool :=
  match x, y with
  | some xs, some ys =>
    match pyFloat? xs, pyFloat? ys with
    | some xv, some yv =>
      let radius : ℕ := min image.width image.height / 15
      let px : ℤ := pyInt (xv * image.width)
      let py : ℤ := pyInt (yv * image.height)
      (⟨image.width, image.height, image.ops ++
        ([DrawOp.ellipse (px - (radius + 2)) (py - (radius + 2))
            (px + (radius + 2)) (py + (radius + 2)) (some "black") none 4,
          DrawOp.ellipse (px - radius) (py - radius) (px + radius) (py + radius)
            (some "red") none 2,
          DrawOp.ellipse (px - 4) (py - 4) (px + 4) (py + 4) (some "black") none 4,
          DrawOp.ellipse (px - 2) (py - 2) (px + 2) (py + 2) none (some "red") 1] ++
         (if px + 10 < (image.width : ℤ) ∧ py + 10 < (image.height : ℤ) then
            [DrawOp.text (px + 10) (py + 10) "MoveTo" "red" "black" 2]
          else if px - 10 > 0 ∧ py - 10 > 0 then
            [DrawOp.text (px - 10) (py - 10) "MoveTo" "red" "black" 2]
          else if px + 10 < (image.width : ℤ) ∧ py - 10 > 0 then
            [DrawOp.text (px + 10) (py - 10) "MoveTo" "red" "black" 2]
          else if px - 10 > 0 ∧ py + 10 < (image.height : ℤ) then
            [DrawOp.text (px - 10) (py + 10) "MoveTo" "red" "black" 2]
          else []))⟩, true)
    | _, _ => (image, false)
  | _, _ => (image, false)

/-- `min(1, *factors)` where a factor that is Python's `float('inf')` is
modelled by `none`, which the minimum skips. -/
def minO (a : ℚ) : Option ℚ → ℚ
  | none => a
  | some b => min a b

/-- `compute_scaling_factor` (action_annotation.py, lines 223-240). -/
def compute_scaling_factor (cx cy dx dy width height margin : ℚ) : ℚ :=
  let fx : Option ℚ :=
    if dx > 0 then some ((width - margin - cx) / dx)
    else if dx < 0 then some ((cx - margin) / |dx|)
    else none
  let fy : Option ℚ :=
    if dy > 0 then some ((height - margin - cy) / dy)
    else if dy < 0 then some ((cy - margin) / |dy|)
    else none
  minO (minO 1 fx) fy

/-- `annotate_scroll` (action_annotation.py, lines 243-300).  The label's
f-string divides by the image width; on a zero-width image that division
raises `ZeroDivisionError` after the six line draws, caught as a `false`
flag.  Otherwise all draws succeed and the flag is `true`. -/
def annotate_scroll (T : Trig) (x y : ℚ) (screenshot : Image) : Image × Bool :=
  let cx : ℕ := screenshot.width / 2
  let cy : ℕ := screenshot.height / 2
  let factor :=
    compute_scaling_factor cx cy x y screenshot.width screenshot.height 15
  let endX : ℚ := cx + x * factor
  let endY : ℚ := cy + y * factor
  let angle := T.atan2 (y * factor) (x * factor)
  let leftX := endX - 15 * T.cos (angle + T.pi / 6)
  let leftY := endY - 15 * T.sin (angle + T.pi / 6)
  let rightX := endX - 15 * T.cos (angle - T.pi / 6)
  let rightY := endY - 15 * T.sin (angle - T.pi / 6)
  let lineOps : List DrawOp :=
    [DrawOp.line cx cy endX endY "black" 4,
     DrawOp.line endX endY leftX leftY "black" 4,
     DrawOp.line endX endY rightX rightY "black" 4,
     DrawOp.line cx cy endX endY "red" 2,
     DrawOp.line endX endY leftX leftY "red" 2,
     DrawOp.line endX endY rightX rightY "red" 2]
  if screenshot.width = 0 then
    (⟨screenshot.width, screenshot.height, screenshot.ops ++ lineOps⟩, false)
  else
    (⟨screenshot.width, screenshot.height,
      screenshot.ops ++ lineOps ++
        [DrawOp.scrollText ((cx : ℤ) + 10) ((cy : ℤ) + 10) (y / screenshot.width)
          "red" "black" 2]⟩, true)

/-- Body of the `for action in actions.split("\n")` loop of `annotate_action`:
the image state is threaded (the source mutates the single aliased image
object in place), and the `success` variable is `none` until a recognized
branch first assigns it. -/
def stepAction (T : Trig) (st : Image × Option Bool) (action : List Char) :
    Image × Option Bool :=
  if (chars "pyautogui.click").isPrefixOf action then
    match extract_x_y action with
    | some (x, y) =>
      let r := annotate_click (some x) (some y) st.1
      (r.1, some r.2)
    | none =>
      let r := annotate_click none none st.1
      (r.1, some r.2)
  else if (chars "pyautogui.moveTo").isPrefixOf action then
    match extract_x_y action with
    | some (x, y) =>
      let r := annotate_move (some x) (some y) st.1
      (r.1, some r.2)
    | none =>
      let r := annotate_move none none st.1
      (r.1, some r.2)
  else if (chars "pyautogui.scroll").isPrefixOf action then
    let xy := convert_scroll action st.1
    let r := annotate_scroll T xy.1 xy.2 st.1
    (r.1, some r.2)
  else st

/-- Python `str.split("\n")`: split at newlines, keeping empty pieces. -/
def splitLines : List Char → List (List Char)
  | [] => [[]]
  | c :: rest =>
    match splitLines rest with
    | [] => [[c]]
    | l :: ls => if c = '\n' then [] :: l :: ls else (c :: l) :: ls

/-- `annotate_action` (action_annotation.py, lines 80-101).  Returns `none`
when no line of `actions` starts with one of the three recognized prefixes:
the source then reads the never-assigned `success` variable and raises
`UnboundLocalError`. -/
def annotate_action (T : Trig) (actions : String) (screenshot : Image) :
    Option (Image × Bool) :=
  match (splitLines actions.toList).foldl (stepAction T) (screenshot, none) with
  | (img, some ok) => some (img, ok)
  | (_, none) => none

/-! ### List scanning helper lemmas -/

/-- `takeWhile` passes over a block of satisfying characters and stops at the
first character of `r`. -/
theorem takeWhile_append_all (p : Char → Bool) (l r : List Char)
    (hl : ∀ a ∈ l, p a = true) (hr : ∀ c, r.head? = some c → p c = false) :
    (l ++ r).takeWhile p = l := by
  induction l with
  | nil =>
    cases r with
    | nil => rfl
    | cons c r' => simp [List.takeWhile_cons, hr c rfl]
  | cons a l ih =>
    have ha : p a = true := hl a (List.mem_cons_self a l)
    simp [List.takeWhile_cons, ha, ih (fun b hb => hl b (List.mem_cons_of_mem a hb))]

/-- `dropWhile` companion of `takeWhile_append_all`. -/
theorem dropWhile_append_all (p : Char → Bool) (l r : List Char)
    (hl : ∀ a ∈ l, p a = true) (hr : ∀ c, r.head? = some c → p c = false) :
    (l ++ r).dropWhile p = r := by
  induction l with
  | nil =>
    cases r with
    | nil => rfl
    | cons c r' => simp [List.dropWhile_cons, hr c rfl]
  | cons a l ih =>
    have ha : p a = true := hl a (List.mem_cons_self a l)
    simp [List.dropWhile_cons, ha, ih (fun b hb => hl b (List.mem_cons_of_mem a hb))]

theorem mem_of_mem_dropWhile (p : Char → Bool) (l : List Char) (a : Char)
    (h : a ∈ l.dropWhile p) : a ∈ l :=
  (List.dropWhile_sublist p).mem h

theorem length_dropWhile_le (p : Char → Bool) (l : List Char) :
    (l.dropWhile p).length ≤ l.length :=
  (List.dropWhile_sublist p).length_le

/-! ### Lemmas about the anchored matchers -/

/-- A position whose head is neither a digit nor a minus sign starts no
`-?\d+\.\d+` match. -/
theorem matchNumKv_none_head (c : Char) (cs : List Char)
    (hd : isDigitChar c = false) (hc : c ≠ '-') :
    matchNumKv (c :: cs) = none := by
  simp [matchNumKv, List.head?_cons, hc, List.takeWhile_cons, hd]

/-- Anchored success of `-?\d+\.\d+` on a numeral followed by input that does
not begin with a digit. -/
theorem matchNumKv_of_parts (sgn d1 d2 rest : List Char)
    (hs : sgn = [] ∨ sgn = ['-'])
    (h1 : d1 ≠ []) (h2 : d2 ≠ [])
    (hd1 : ∀ c ∈ d1, isDigitChar c = true) (hd2 : ∀ c ∈ d2, isDigitChar c = true)
    (hrest : ∀ c, rest.head? = some c → isDigitChar c = false) :
    matchNumKv (sgn ++ (d1 ++ '.' :: (d2 ++ rest))) = some (sgn ++ d1 ++ '.' :: d2, rest) := by
  have hdot : ∀ c, (('.' :: (d2 ++ rest)) : List Char).head? = some c → isDigitChar c = false := by
    intro c hcp
    simp only [List.head?_cons, Option.some.injEq] at hcp
    subst hcp
    decide
  obtain ⟨a, d1', rfl⟩ := List.exists_cons_of_ne_nil h1
  have ha : isDigitChar a = true := hd1 a (List.mem_cons_self a d1')
  have hane : a ≠ '-' := by
    intro e
    subst e
    exact absurd ha (by decide)
  have htake1 : List.takeWhile isDigitChar (a :: (d1' ++ '.' :: (d2 ++ rest))) = a :: d1' := by
    rw [← List.cons_append]
    exact takeWhile_append_all _ _ _ hd1 hdot
  have hdrop1 : List.dropWhile isDigitChar (a :: (d1' ++ '.' :: (d2 ++ rest))) =
      '.' :: (d2 ++ rest) := by
    rw [← List.cons_append]
    exact dropWhile_append_all _ _ _ hd1 hdot
  have htake2 : (d2 ++ rest).takeWhile isDigitChar = d2 :=
    takeWhile_append_all _ _ _ hd2 hrest
  have hdrop2 : (d2 ++ rest).dropWhile isDigitChar = rest :=
    dropWhile_append_all _ _ _ hd2 hrest
  rcases hs with h | h <;> subst h
  · simp [matchNumKv, List.head?_cons, hane, htake1, hdrop1, htake2, hdrop2, h2]
  · simp [matchNumKv, List.head?_cons, hane, htake1, hdrop1, htake2, hdrop2, h2]

/-- A successful `-?\d+\.\d+` match consumes at least one character. -/
theorem matchNumKv_rest_lt (cs cap rest : List Char)
    (h : matchNumKv cs = some (cap, rest)) : rest.length < cs.length := by
  have hr0 : (if cs.head? = some '-' then cs.tail else cs).length ≤ cs.length := by
    split
    · exact (List.length_tail cs) ▸ Nat.sub_le _ _
    · exact le_rfl
  simp only [matchNumKv] at h
  set r0 := if cs.head? = some '-' then cs.tail else cs with hr0def
  split at h
  · exact absurd h (by simp)
  · split at h
    · exact absurd h (by simp)
    · rename_i heq
      split at h
      · split at h
        · exact absurd h (by simp)
        · rename_i r1 hdot hd2
          have h2 := (Option.some.injEq _ _).mp h
          have hrest : rest = r1.dropWhile isDigitChar := by
            have := congrArg Prod.snd h2
            simpa using this.symm
          have hlen1 : (List.dropWhile isDigitChar r0).length ≤ r0.length :=
            length_dropWhile_le _ _
          rw [heq] at hlen1
          have hlen2 : rest.length ≤ r1.length := by
            rw [hrest]
            exact length_dropWhile_le _ _
          simp only [List.length_cons] at hlen1
          omega
      · exact absurd h (by simp)

/-- A successful key/value match consumes at least one character. -/
theorem matchKvAt_rest_lt (cs : List Char) (kv : List Char × List Char) (rest : List Char)
    (h : matchKvAt cs = some (kv, rest)) : rest.length < cs.length := by
  simp only [matchKvAt] at h
  split at h
  · exact absurd h (by simp)
  · split at h
    · exact absurd h (by simp)
    · rename_i c r2 heq
      split at h
      · split at h
        · rename_i v restN hnum
          have h2 := (Option.some.injEq _ _).mp h
          have hrest : rest = restN := by
            have := congrArg Prod.snd h2
            simpa using this.symm
          subst hrest
          have hn := matchNumKv_rest_lt _ _ _ hnum
          have h3 : (skipSpaces r2).length ≤ r2.length := length_dropWhile_le _ _
          have h4 : (skipSpaces (cs.dropWhile isWordChar)).length ≤
              (cs.dropWhile isWordChar).length := length_dropWhile_le _ _
          have h5 : (cs.dropWhile isWordChar).length ≤ cs.length := length_dropWhile_le _ _
          rw [heq] at h4
          simp only [List.length_cons] at h4
          omega
        · exact absurd h (by simp)
      · exact absurd h (by simp)

/-- A string containing no `=` has no key/value match anywhere. -/
theorem matchKvAt_none_of_no_eq (cs : List Char) (h : '=' ∉ cs) : matchKvAt cs = none := by
  simp only [matchKvAt]
  split
  · rfl
  · split
    · rfl
    · rename_i c r2 heq
      have hc : c ∈ cs := by
        have h1 : c ∈ skipSpaces (cs.dropWhile isWordChar) := by
          rw [heq]
          exact List.mem_cons_self c r2
        exact mem_of_mem_dropWhile _ _ _ (mem_of_mem_dropWhile _ _ _ h1)
      have : c ≠ '=' := fun e => h (e ▸ hc)
      simp [this]

/-! ### `findall` scanning loop lemmas -/

/-- The fuel of `findAllNumAux` is irrelevant above the input length. -/
theorem findAllNumAux_fuel (f1 : ℕ) : ∀ (f2 : ℕ) (cs : List Char),
    cs.length < f1 → cs.length < f2 → findAllNumAux f1 cs = findAllNumAux f2 cs := by
  induction f1 with
  | zero => intro f2 cs h1 h2; omega
  | succ f1 ih =>
    intro f2 cs h1 h2
    cases f2 with
    | zero => omega
    | succ f2 =>
      cases cs with
      | nil => rfl
      | cons c rest =>
        simp only [findAllNumAux]
        cases hm : matchNumKv (c :: rest) with
        | none =>
          simp only [List.length_cons] at h1 h2
          exact ih f2 rest (by omega) (by omega)
        | some pr =>
          obtain ⟨cap, restA⟩ := pr
          have hlt := matchNumKv_rest_lt _ _ _ hm
          simp only [List.length_cons] at h1 h2 hlt
          show cap :: findAllNumAux f1 restA = cap :: findAllNumAux f2 restA
          rw [ih f2 restA (by omega) (by omega)]

/-- The fuel of `findAllKvAux` is irrelevant above the input length. -/
theorem findAllKvAux_fuel (f1 : ℕ) : ∀ (f2 : ℕ) (cs : List Char),
    cs.length < f1 → cs.length < f2 → findAllKvAux f1 cs = findAllKvAux f2 cs := by
  induction f1 with
  | zero => intro f2 cs h1 h2; omega
  | succ f1 ih =>
    intro f2 cs h1 h2
    cases f2 with
    | zero => omega
    | succ f2 =>
      cases cs with
      | nil => rfl
      | cons c rest =>
        simp only [findAllKvAux]
        cases hm : matchKvAt (c :: rest) with
        | none =>
          simp only [List.length_cons] at h1 h2
          exact ih f2 rest (by omega) (by omega)
        | some pr =>
          obtain ⟨kv, restA⟩ := pr
          have hlt := matchKvAt_rest_lt _ _ _ hm
          simp only [List.length_cons] at h1 h2 hlt
          show kv :: findAllKvAux f1 restA = kv :: findAllKvAux f2 restA
          rw [ih f2 restA (by omega) (by omega)]

theorem findAllNum_nil : findAllNum [] = [] := rfl

theorem findAllNum_cons_none (c : Char) (cs : List Char)
    (h : matchNumKv (c :: cs) = none) : findAllNum (c :: cs) = findAllNum cs := by
  simp only [findAllNum, List.length_cons, findAllNumAux, h]

theorem findAllNum_cons_some (c : Char) (cs cap rest : List Char)
    (h : matchNumKv (c :: cs) = some (cap, rest)) :
    findAllNum (c :: cs) = cap :: findAllNum rest := by
  have hlt := matchNumKv_rest_lt _ _ _ h
  simp only [List.length_cons] at hlt
  simp only [findAllNum, List.length_cons, findAllNumAux, h]
  exact congrArg _ (findAllNumAux_fuel _ _ _ (by omega) (by omega))

theorem findAllKv_nil : findAllKv [] = [] := rfl

theorem findAllKv_cons_none (c : Char) (cs : List Char)
    (h : matchKvAt (c :: cs) = none) : findAllKv (c :: cs) = findAllKv cs := by
  simp only [findAllKv, List.length_cons, findAllKvAux, h]

theorem findAllKv_cons_some (c : Char) (cs : List Char) (kv : List Char × List Char)
    (rest : List Char) (h : matchKvAt (c :: cs) = some (kv, rest)) :
    findAllKv (c :: cs) = kv :: findAllKv rest := by
  have hlt := matchKvAt_rest_lt _ _ _ h
  simp only [List.length_cons] at hlt
  simp only [findAllKv, List.length_cons, findAllKvAux, h]
  exact congrArg _ (findAllKvAux_fuel _ _ _ (by omega) (by omega))

/-- A string containing no `=` yields no key/value pairs at all. -/
theorem findAllKv_eq_nil_of_no_eq (cs : List Char) (h : '=' ∉ cs) : findAllKv cs = [] := by
  induction cs with
  | nil => rfl
  | cons c rest ih =>
    rw [findAllKv_cons_none c rest (matchKvAt_none_of_no_eq _ h)]
    exact ih fun hm => h (List.mem_cons_of_mem c hm)

/-- `dropWhile` is the identity when the head (if any) fails the predicate. -/
theorem dropWhile_head_false (p : Char → Bool) (l : List Char)
    (h : ∀ c, l.head? = some c → p c = false) : l.dropWhile p = l := by
  cases l with
  | nil => rfl
  | cons c r => simp [List.dropWhile_cons, h c rfl]

theorem space_of_digit (c : Char) (h : isDigitChar c = true) : isSpaceChar c = false := by
  have h1 : c ≠ ' ' := by intro e; subst e; exact absurd h (by decide)
  have h2 : c ≠ '\t' := by intro e; subst e; exact absurd h (by decide)
  have h3 : c ≠ '\n' := by intro e; subst e; exact absurd h (by decide)
  have h4 : c ≠ '\r' := by intro e; subst e; exact absurd h (by decide)
  have h5 : c ≠ Char.ofNat 11 := by intro e; subst e; exact absurd h (by decide)
  have h6 : c ≠ Char.ofNat 12 := by intro e; subst e; exact absurd h (by decide)
  simp [isSpaceChar, h1, h2, h3, h4, h5, h6]

/-- The shape of a `-?\d+\.\d+` numeral: optional minus sign, then a nonempty
digit block, a dot, and a nonempty digit block. -/
def KvNum (ps : List Char) : Prop :=
  ∃ sgn d1 d2, (sgn = [] ∨ sgn = ['-']) ∧ d1 ≠ [] ∧ d2 ≠ [] ∧
    (∀ c ∈ d1, isDigitChar c = true) ∧ (∀ c ∈ d2, isDigitChar c = true) ∧
    ps = sgn ++ d1 ++ '.' :: d2

theorem KvNum.no_eq {ps : List Char} (hp : KvNum ps) : '=' ∉ ps := by
  obtain ⟨sgn, d1, d2, hs, _, _, hd1, hd2, rfl⟩ := hp
  intro hm
  simp only [List.mem_append, List.mem_cons] at hm
  rcases hm with (hm | hm) | hm | hm
  · rcases hs with h | h <;> subst h
    · exact absurd hm (List.not_mem_nil _)
    · rw [List.mem_singleton] at hm
      exact absurd hm (by decide)
  · exact absurd (hd1 _ hm) (by decide)
  · exact absurd hm (by decide)
  · exact absurd (hd2 _ hm) (by decide)

/-- The first character of a `-?\d+\.\d+` numeral is a minus sign or a digit;
in particular it is not a space. -/
theorem KvNum.head_not_space {ps : List Char} (hp : KvNum ps) (rest : List Char) :
    ∀ c, (ps ++ rest).head? = some c → isSpaceChar c = false := by
  obtain ⟨sgn, d1, d2, hs, h1, _, hd1, _, rfl⟩ := hp
  obtain ⟨a, d1', rfl⟩ := List.exists_cons_of_ne_nil h1
  intro c hc
  rcases hs with h | h <;> subst h <;>
    simp only [List.nil_append, List.cons_append, List.append_assoc, List.head?_cons,
      Option.some.injEq] at hc <;> subst hc
  · exact space_of_digit a (hd1 a (List.mem_cons_self a d1'))
  · decide

/-- Anchored numeral match at a `KvNum` numeral followed by a non-digit. -/
theorem matchNumKv_kvnum (ps rest : List Char) (hp : KvNum ps)
    (hrest : ∀ c, rest.head? = some c → isDigitChar c = false) :
    matchNumKv (ps ++ rest) = some (ps, rest) := by
  obtain ⟨sgn, d1, d2, hs, h1, h2, hd1, hd2, rfl⟩ := hp
  have h := matchNumKv_of_parts sgn d1 d2 rest hs h1 h2 hd1 hd2 hrest
  simpa [List.append_assoc, List.cons_append] using h

/-- Anchored key/value match at `key=<numeral>`. -/
theorem matchKvAt_keyval (k ps rest : List Char) (hk : k ≠ [])
    (hkw : ∀ c ∈ k, isWordChar c = true) (hp : KvNum ps)
    (hrest : ∀ c, rest.head? = some c → isDigitChar c = false) :
    matchKvAt (k ++ '=' :: (ps ++ rest)) = some ((k, ps), rest) := by
  have heqw : ∀ c, (('=' :: (ps ++ rest)) : List Char).head? = some c → isWordChar c = false := by
    intro c hc
    simp only [List.head?_cons, Option.some.injEq] at hc
    subst hc
    decide
  have htk : (k ++ '=' :: (ps ++ rest)).takeWhile isWordChar = k :=
    takeWhile_append_all _ _ _ hkw heqw
  have hdk : (k ++ '=' :: (ps ++ rest)).dropWhile isWordChar = '=' :: (ps ++ rest) :=
    dropWhile_append_all _ _ _ hkw heqw
  have hs1 : skipSpaces ('=' :: (ps ++ rest)) = '=' :: (ps ++ rest) := by
    apply dropWhile_head_false
    intro c hc
    simp only [List.head?_cons, Option.some.injEq] at hc
    subst hc
    decide
  have hs2 : skipSpaces (ps ++ rest) = ps ++ rest :=
    dropWhile_head_false _ _ (hp.head_not_space rest)
  have hnum := matchNumKv_kvnum ps rest hp hrest
  simp only [matchKvAt, htk, hdk, hs1, hs2, hnum, if_neg hk]
  simp

/-- `findAllNum` at a position where the anchored match succeeds. -/
theorem findAllNum_match (cs cap rest : List Char)
    (h : matchNumKv cs = some (cap, rest)) :
    findAllNum cs = cap :: findAllNum rest := by
  cases cs with
  | nil => exact absurd h (by simp [matchNumKv])
  | cons c cs' => exact findAllNum_cons_some c cs' cap rest h

/-- `findAllKv` at a position where the anchored match succeeds. -/
theorem findAllKv_match (cs : List Char) (kv : List Char × List Char) (rest : List Char)
    (h : matchKvAt cs = some (kv, rest)) :
    findAllKv cs = kv :: findAllKv rest := by
  cases cs with
  | nil => exact absurd h (by simp [matchKvAt])
  | cons c cs' => exact findAllKv_cons_some c cs' kv rest h

/-- Head-of-rest side condition used at the scroll-line call sites. -/
theorem head_rparen_not_digit :
    ∀ c, (([')']) : List Char).head? = some c → isDigitChar c = false := by
  intro c hc
  simp only [List.head?_cons, Option.some.injEq] at hc
  subst hc
  decide

theorem head_comma_not_digit (t : List Char) :
    ∀ c, ((',' :: t) : List Char).head? = some c → isDigitChar c = false := by
  intro c hc
  simp only [List.head?_cons, Option.some.injEq] at hc
  subst hc
  decide

/-- Scanning a keyed scroll line `pyautogui.scroll(page=<numeral>)` finds
exactly the `page` pair.  The scan over the concrete prefix is definitional
(the anchored match fails at each of the first 17 positions), so the jump to
the `page=` position is a `rfl` step. -/
theorem findAllKv_page_line (ps : List Char) (hp : KvNum ps) :
    findAllKv (chars "pyautogui.scroll(page=" ++ (ps ++ [')'])) = [(chars "page", ps)] := by
  have hm : matchKvAt ('p' :: 'a' :: 'g' :: 'e' :: '=' :: (ps ++ [')'])) =
      some ((chars "page", ps), [')']) :=
    matchKvAt_keyval (chars "page") ps [')'] (by decide) (by decide) hp head_rparen_not_digit
  have h1 : findAllKv (chars "pyautogui.scroll(page=" ++ (ps ++ [')'])) =
      findAllKv ('p' :: 'a' :: 'g' :: 'e' :: '=' :: (ps ++ [')'])) := rfl
  rw [h1, findAllKv_match _ _ _ hm]
  rfl

/-- Scanning `pyautogui.scroll(page=<numeral>, horizontal=<numeral>)` finds
the two pairs in order. -/
theorem findAllKv_page_horiz_line (ps hs : List Char) (hp : KvNum ps) (hh : KvNum hs) :
    findAllKv (chars "pyautogui.scroll(page=" ++
        (ps ++ (',' :: ' ' :: ('h' :: 'o' :: 'r' :: 'i' :: 'z' :: 'o' :: 'n' :: 't' :: 'a' ::
          'l' :: '=' :: (hs ++ [')']))))) =
      [(chars "page", ps), (chars "horizontal", hs)] := by
  have hm2 : matchKvAt ('h' :: 'o' :: 'r' :: 'i' :: 'z' :: 'o' :: 'n' :: 't' :: 'a' :: 'l' ::
      '=' :: (hs ++ [')'])) = some ((chars "horizontal", hs), [')']) :=
    matchKvAt_keyval (chars "horizontal") hs [')'] (by decide) (by decide) hh
      head_rparen_not_digit
  have hm1 : matchKvAt ('p' :: 'a' :: 'g' :: 'e' :: '=' ::
      (ps ++ (',' :: ' ' :: ('h' :: 'o' :: 'r' :: 'i' :: 'z' :: 'o' :: 'n' :: 't' :: 'a' ::
        'l' :: '=' :: (hs ++ [')']))))) =
      some ((chars "page", ps),
        ',' :: ' ' :: ('h' :: 'o' :: 'r' :: 'i' :: 'z' :: 'o' :: 'n' :: 't' :: 'a' :: 'l' ::
          '=' :: (hs ++ [')']))) :=
    matchKvAt_keyval (chars "page") ps _ (by decide) (by decide) hp (head_comma_not_digit _)
  have h1 : findAllKv (chars "pyautogui.scroll(page=" ++
      (ps ++ (',' :: ' ' :: ('h' :: 'o' :: 'r' :: 'i' :: 'z' :: 'o' :: 'n' :: 't' :: 'a' ::
        'l' :: '=' :: (hs ++ [')']))))) =
      findAllKv ('p' :: 'a' :: 'g' :: 'e' :: '=' ::
        (ps ++ (',' :: ' ' :: ('h' :: 'o' :: 'r' :: 'i' :: 'z' :: 'o' :: 'n' :: 't' :: 'a' ::
          'l' :: '=' :: (hs ++ [')']))))) := rfl
  rw [h1, findAllKv_match _ _ _ hm1]
  have h2 : findAllKv (',' :: ' ' :: ('h' :: 'o' :: 'r' :: 'i' :: 'z' :: 'o' :: 'n' :: 't' ::
      'a' :: 'l' :: '=' :: (hs ++ [')']))) =
      findAllKv ('h' :: 'o' :: 'r' :: 'i' :: 'z' :: 'o' :: 'n' :: 't' :: 'a' :: 'l' ::
        '=' :: (hs ++ [')'])) := rfl
  rw [h2, findAllKv_match _ _ _ hm2]
  rfl

/-- Scanning a positional scroll line `pyautogui.scroll(<numeral>)` for bare
numerals finds exactly the numeral. -/
theorem findAllNum_pos1_line (ps : List Char) (hp : KvNum ps) :
    findAllNum (chars "pyautogui.scroll(" ++ (ps ++ [')'])) = [ps] := by
  have hm : matchNumKv (ps ++ [')']) = some (ps, [')']) :=
    matchNumKv_kvnum ps [')'] hp head_rparen_not_digit
  have h1 : findAllNum (chars "pyautogui.scroll(" ++ (ps ++ [')'])) =
      findAllNum (ps ++ [')']) := rfl
  rw [h1, findAllNum_match _ _ _ hm]
  rfl

/-- Scanning a positional scroll line `pyautogui.scroll(<numeral>, <numeral>)`
finds the two numerals in order. -/
theorem findAllNum_pos2_line (ps hs : List Char) (hp : KvNum ps) (hh : KvNum hs) :
    findAllNum (chars "pyautogui.scroll(" ++ (ps ++ (',' :: ' ' :: (hs ++ [')'])))) =
      [ps, hs] := by
  have hm1 : matchNumKv (ps ++ (',' :: ' ' :: (hs ++ [')']))) =
      some (ps, ',' :: ' ' :: (hs ++ [')'])) :=
    matchNumKv_kvnum ps _ hp (head_comma_not_digit _)
  have hm2 : matchNumKv (hs ++ [')']) = some (hs, [')']) :=
    matchNumKv_kvnum hs [')'] hh head_rparen_not_digit
  have h1 : findAllNum (chars "pyautogui.scroll(" ++ (ps ++ (',' :: ' ' :: (hs ++ [')'])))) =
      findAllNum (ps ++ (',' :: ' ' :: (hs ++ [')']))) := rfl
  rw [h1, findAllNum_match _ _ _ hm1]
  have h2 : findAllNum (',' :: ' ' :: (hs ++ [')'])) = findAllNum (hs ++ [')']) := rfl
  rw [h2, findAllNum_match _ _ _ hm2]
  rfl

/-- A positional scroll line contains no `=`, so the key/value scan is empty. -/
theorem findAllKv_pos1_line (ps : List Char) (hp : KvNum ps) :
    findAllKv (chars "pyautogui.scroll(" ++ (ps ++ [')'])) = [] := by
  apply findAllKv_eq_nil_of_no_eq
  intro h
  rcases List.mem_append.mp h with h | h
  · exact absurd h (by decide)
  · rcases List.mem_append.mp h with h | h
    · exact hp.no_eq h
    · exact absurd h (by decide)

theorem findAllKv_pos2_line (ps hs : List Char) (hp : KvNum ps) (hh : KvNum hs) :
    findAllKv (chars "pyautogui.scroll(" ++ (ps ++ (',' :: ' ' :: (hs ++ [')'])))) = [] := by
  apply findAllKv_eq_nil_of_no_eq
  intro h
  rcases List.mem_append.mp h with h | h
  · exact absurd h (by decide)
  · rcases List.mem_append.mp h with h | h
    · exact hp.no_eq h
    · rcases List.mem_cons.mp h with h | h
      · exact absurd h (by decide)
      · rcases List.mem_cons.mp h with h | h
        · exact absurd h (by decide)
        · rcases List.mem_append.mp h with h | h
          · exact hh.no_eq h
          · exact absurd h (by decide)

/-- `convert_scroll` on a keyed page-only scroll line. -/
theorem convert_scroll_page_only (ps : List Char) (img : Image) (hp : KvNum ps) :
    convert_scroll (chars "pyautogui.scroll(page=" ++ (ps ++ [')'])) img =
      (0, -(pyFloatD ps) * img.height) := by
  simp [convert_scroll, findAllKv_page_line ps hp, dictGet, List.find?,
    (show (chars "page" == chars "page") = true from rfl),
    (show (chars "page" == chars "horizontal") = false from rfl),
    (show (chars "page" == chars "h") = false from rfl)]

/-- `convert_scroll` on a keyed page-and-horizontal scroll line. -/
theorem convert_scroll_page_horiz (ps hs : List Char) (img : Image)
    (hp : KvNum ps) (hh : KvNum hs) :
    convert_scroll (chars "pyautogui.scroll(page=" ++
        (ps ++ (',' :: ' ' :: ('h' :: 'o' :: 'r' :: 'i' :: 'z' :: 'o' :: 'n' :: 't' :: 'a' ::
          'l' :: '=' :: (hs ++ [')']))))) img =
      (pyFloatD hs * img.width, -(pyFloatD ps) * img.height) := by
  simp [convert_scroll, findAllKv_page_horiz_line ps hs hp hh, dictGet, List.find?,
    (show (chars "page" == chars "page") = true from rfl),
    (show (chars "horizontal" == chars "page") = false from rfl),
    (show (chars "horizontal" == chars "horizontal") = true from rfl)]

/-- `convert_scroll` on a positional one-numeral scroll line. -/
theorem convert_scroll_pos1 (ps : List Char) (img : Image) (hp : KvNum ps) :
    convert_scroll (chars "pyautogui.scroll(" ++ (ps ++ [')'])) img =
      (0, -(pyFloatD ps) * img.height) := by
  simp [convert_scroll, findAllKv_pos1_line ps hp, findAllNum_pos1_line ps hp]

/-- `convert_scroll` on a positional two-numeral scroll line. -/
theorem convert_scroll_pos2 (ps hs : List Char) (img : Image)
    (hp : KvNum ps) (hh : KvNum hs) :
    convert_scroll (chars "pyautogui.scroll(" ++ (ps ++ (',' :: ' ' :: (hs ++ [')'])))) img =
      (pyFloatD hs * img.width, -(pyFloatD ps) * img.height) := by
  simp [convert_scroll, findAllKv_pos2_line ps hs hp hh, findAllNum_pos2_line ps hs hp hh]

/-! ### `int()` and numeral-value lemmas -/

theorem pyInt_intCast (n : ℤ) : pyInt (n : ℚ) = n := by
  unfold pyInt
  split
  · exact Int.floor_intCast n
  · exact Int.ceil_intCast n

theorem pyInt_of_nonneg (q : ℚ) (h : 0 ≤ q) : pyInt q = ⌊q⌋ := if_pos h

/-- Truncation of a nonnegative value differs from rounding by at most one
pixel. -/
theorem pyInt_round_dist (q : ℚ) (h : 0 ≤ q) : |pyInt q - round q| ≤ 1 := by
  rw [pyInt_of_nonneg q h, round_eq]
  have h1 : ⌊q⌋ ≤ ⌊q + 1 / 2⌋ := Int.floor_le_floor (by linarith)
  have h2 : ⌊q + 1 / 2⌋ ≤ ⌊q + 1⌋ := Int.floor_le_floor (by linarith)
  have h3 : ⌊q + 1⌋ = ⌊q⌋ + 1 := by
    rw [show (1 : ℚ) = ((1 : ℤ) : ℚ) by norm_num, Int.floor_add_int]
  rw [abs_le]
  omega

theorem ratOfParts_half : ratOfParts false ['0'] ['5'] = 1 / 2 := by
  norm_num [ratOfParts, show digitsValN ['0'] = 0 from rfl, show digitsValN ['5'] = 5 from rfl]

theorem ratOfParts_neg_half : ratOfParts true ['0'] ['5'] = -(1 / 2) := by
  norm_num [ratOfParts, show digitsValN ['0'] = 0 from rfl, show digitsValN ['5'] = 5 from rfl]

theorem ratOfParts_seven_halves : ratOfParts false ['3'] ['5'] = 7 / 2 := by
  norm_num [ratOfParts, show digitsValN ['3'] = 3 from rfl, show digitsValN ['5'] = 5 from rfl]

theorem ratOfParts_neg_two : ratOfParts true ['2'] ['0'] = -2 := by
  norm_num [ratOfParts, show digitsValN ['2'] = 2 from rfl, show digitsValN ['0'] = 0 from rfl]

theorem pyFloat_half : pyFloat? (chars "0.5") = some (1 / 2) := by
  rw [show pyFloat? (chars "0.5") = some (ratOfParts false ['0'] ['5']) from rfl,
    ratOfParts_half]

theorem pyFloat_neg_half : pyFloat? (chars "-0.5") = some (-(1 / 2)) := by
  rw [show pyFloat? (chars "-0.5") = some (ratOfParts true ['0'] ['5']) from rfl,
    ratOfParts_neg_half]

theorem pyFloatD_neg_half : pyFloatD (chars "-0.5") = -(1 / 2) := by
  rw [pyFloatD, pyFloat_neg_half]
  rfl

/-! ### The shape of the click/move marker -/

/-- The four concentric-circle draw calls of the click/move renderers: halo
ring at `radius + 2`, main ring at `radius`, inner dot outline, inner dot. -/
def ringOps (px py : ℤ) (radius : ℕ) : List DrawOp :=
  [DrawOp.ellipse (px - (radius + 2)) (py - (radius + 2))
      (px + (radius + 2)) (py + (radius + 2)) (some "black") none 4,
   DrawOp.ellipse (px - radius) (py - radius) (px + radius) (py + radius)
      (some "red") none 2,
   DrawOp.ellipse (px - 4) (py - 4) (px + 4) (py + 4) (some "black") none 4,
   DrawOp.ellipse (px - 2) (py - 2) (px + 2) (py + 2) none (some "red") 1]

/-- The label branch of the click/move renderers, exactly as the source's
`if`/`elif` chain writes it. -/
def labelOps (px py : ℤ) (label : String) (W H : ℕ) : List DrawOp :=
  if px + 10 < (W : ℤ) ∧ py + 10 < (H : ℤ) then
    [DrawOp.text (px + 10) (py + 10) label "red" "black" 2]
  else if px - 10 > 0 ∧ py - 10 > 0 then
    [DrawOp.text (px - 10) (py - 10) label "red" "black" 2]
  else if px + 10 < (W : ℤ) ∧ py - 10 > 0 then
    [DrawOp.text (px + 10) (py - 10) label "red" "black" 2]
  else if px - 10 > 0 ∧ py + 10 < (H : ℤ) then
    [DrawOp.text (px - 10) (py + 10) label "red" "black" 2]
  else []

/-- One axis of the label-visibility test the source actually performs: a
positive offset is checked only against the upper bound, a negative offset
only against the lower bound. -/
def axisOk (a d : ℤ) (dim : ℕ) : Bool :=
  if 0 < d then decide (a < (dim : ℤ)) else decide (0 < a)

/-- The label anchor as a first-fit search over the four candidate offsets
`(+10,+10), (−10,−10), (+10,−10), (−10,+10)`, taken in the source's order,
each checked per axis by `axisOk`. -/
def labelAnchor (px py : ℤ) (W H : ℕ) : Option (ℤ × ℤ) :=
  (([((10 : ℤ), (10 : ℤ)), (-10, -10), (10, -10), (-10, 10)]).find? fun d =>
    axisOk (px + d.1) d.1 W && axisOk (py + d.2) d.2 H).map fun d => (px + d.1, py + d.2)

/-- The source's `if`/`elif` label chain is the first-fit candidate search. -/
theorem labelOps_eq_anchor (px py : ℤ) (label : String) (W H : ℕ) :
    labelOps px py label W H =
      match labelAnchor px py W H with
      | some a => [DrawOp.text a.1 a.2 label "red" "black" 2]
      | none => [] := by
  have t10 : (0 : ℤ) < 10 := by norm_num
  have tn10 : ¬ (0 : ℤ) < -10 := by norm_num
  unfold labelOps labelAnchor
  by_cases h1 : px + 10 < (W : ℤ) ∧ py + 10 < (H : ℤ)
  · rw [if_pos h1, List.find?_cons_of_pos]
    · rfl
    · simp [axisOk, t10, h1.1, h1.2]
  · rw [if_neg h1, List.find?_cons_of_neg]
    swap
    · simp only [axisOk, if_pos t10, Bool.and_eq_true, decide_eq_true_eq, not_and]
      intro ha hb
      exact h1 ⟨ha, hb⟩
    by_cases h2 : px - 10 > 0 ∧ py - 10 > 0
    · rw [if_pos h2, List.find?_cons_of_pos]
      · show [DrawOp.text (px - 10) (py - 10) label "red" "black" 2] =
          [DrawOp.text (px + -10) (py + -10) label "red" "black" 2]
        norm_num [sub_eq_add_neg]
      · simp only [axisOk, if_neg tn10, Bool.and_eq_true, decide_eq_true_eq]
        constructor
        · omega
        · omega
    · rw [if_neg h2, List.find?_cons_of_neg]
      swap
      · simp only [axisOk, if_neg tn10, Bool.and_eq_true, decide_eq_true_eq, not_and]
        intro ha hb
        exact h2 ⟨by omega, by omega⟩
      by_cases h3 : px + 10 < (W : ℤ) ∧ py - 10 > 0
      · rw [if_pos h3, List.find?_cons_of_pos]
        · show [DrawOp.text (px + 10) (py - 10) label "red" "black" 2] =
            [DrawOp.text (px + 10) (py + -10) label "red" "black" 2]
          norm_num [sub_eq_add_neg]
        · simp only [axisOk, if_pos t10, if_neg tn10, Bool.and_eq_true, decide_eq_true_eq]
          exact ⟨h3.1, by omega⟩
      · rw [if_neg h3, List.find?_cons_of_neg]
        swap
        · simp only [axisOk, if_pos t10, if_neg tn10, Bool.and_eq_true, decide_eq_true_eq,
            not_and]
          intro ha hb
          exact h3 ⟨ha, by omega⟩
        by_cases h4 : px - 10 > 0 ∧ py + 10 < (H : ℤ)
        · rw [if_pos h4, List.find?_cons_of_pos]
          · show [DrawOp.text (px - 10) (py + 10) label "red" "black" 2] =
              [DrawOp.text (px + -10) (py + 10) label "red" "black" 2]
            norm_num [sub_eq_add_neg]
          · simp only [axisOk, if_pos t10, if_neg tn10, Bool.and_eq_true, decide_eq_true_eq]
            exact ⟨by omega, h4.2⟩
        · rw [if_neg h4, List.find?_cons_of_neg]
          · rfl
          · simp only [axisOk, if_pos t10, if_neg tn10, Bool.and_eq_true, decide_eq_true_eq,
              not_and]
            intro ha hb
            exact h4 ⟨by omega, hb⟩

/-- Success form of `annotate_click`: both coordinates parse, the four rings
and the guarded label are appended, and the flag is `true`. -/
theorem annotate_click_eq (xs ys : List Char) (xv yv : ℚ) (img : Image)
    (hx : pyFloat? xs = some xv) (hy : pyFloat? ys = some yv) :
    annotate_click (some xs) (some ys) img =
      (⟨img.width, img.height, img.ops ++
        (ringOps (pyInt (xv * img.width)) (pyInt (yv * img.height))
            (min img.width img.height / 15) ++
         labelOps (pyInt (xv * img.width)) (pyInt (yv * img.height)) "Click"
            img.width img.height)⟩, true) := by
  simp only [annotate_click, hx, hy, ringOps, labelOps]

/-- Success form of `annotate_move`. -/
theorem annotate_move_eq (xs ys : List Char) (xv yv : ℚ) (img : Image)
    (hx : pyFloat? xs = some xv) (hy : pyFloat? ys = some yv) :
    annotate_move (some xs) (some ys) img =
      (⟨img.width, img.height, img.ops ++
        (ringOps (pyInt (xv * img.width)) (pyInt (yv * img.height))
            (min img.width img.height / 15) ++
         labelOps (pyInt (xv * img.width)) (pyInt (yv * img.height)) "MoveTo"
            img.width img.height)⟩, true) := by
  simp only [annotate_move, hx, hy, ringOps, labelOps]

/-- Failure form of `annotate_click`: a missing or malformed coordinate is
caught before any drawing. -/
theorem annotate_click_fail (x y : Option (List Char)) (img : Image)
    (h : match x, y with
         | some xs, some ys => pyFloat? xs = none ∨ pyFloat? ys = none
         | _, _ => True) :
    annotate_click x y img = (img, false) := by
  cases x with
  | none => rfl
  | some xs =>
    cases y with
    | none => rfl
    | some ys =>
      cases hx : pyFloat? xs with
      | none => simp [annotate_click, hx]
      | some xv =>
        cases hy : pyFloat? ys with
        | none => simp [annotate_click, hx, hy]
        | some yv =>
          rcases h with h | h
          · exact absurd hx (h ▸ fun e => Option.noConfusion e)
          · exact absurd hy (h ▸ fun e => Option.noConfusion e)

/-- Failure form of `annotate_move`. -/
theorem annotate_move_fail (x y : Option (List Char)) (img : Image)
    (h : match x, y with
         | some xs, some ys => pyFloat? xs = none ∨ pyFloat? ys = none
         | _, _ => True) :
    annotate_move x y img = (img, false) := by
  cases x with
  | none => rfl
  | some xs =>
    cases y with
    | none => rfl
    | some ys =>
      cases hx : pyFloat? xs with
      | none => simp [annotate_move, hx]
      | some xv =>
        cases hy : pyFloat? ys with
        | none => simp [annotate_move, hx, hy]
        | some yv =>
          rcases h with h | h
          · exact absurd hx (h ▸ fun e => Option.noConfusion e)
          · exact absurd hy (h ▸ fun e => Option.noConfusion e)

/-- The one textual difference between the click and move renderers. -/
def relabelMove : DrawOp → DrawOp
  | DrawOp.text a b l f sf sw =>
    DrawOp.text a b (if l = "Click" then "MoveTo" else l) f sf sw
  | op => op

theorem ringOps_relabel (px py : ℤ) (r : ℕ) :
    (ringOps px py r).map relabelMove = ringOps px py r := by
  simp [ringOps, relabelMove]

theorem labelOps_relabel (px py : ℤ) (W H : ℕ) :
    (labelOps px py "Click" W H).map relabelMove = labelOps px py "MoveTo" W H := by
  unfold labelOps
  split
  · simp [relabelMove]
  · split
    · simp [relabelMove]
    · split
      · simp [relabelMove]
      · split
        · simp [relabelMove]
        · rfl

/-! ### Dimension preservation -/

theorem annotate_click_dims (x y : Option (List Char)) (img : Image) :
    (annotate_click x y img).1.width = img.width ∧
    (annotate_click x y img).1.height = img.height := by
  cases x with
  | none => exact ⟨rfl, rfl⟩
  | some xs =>
    cases y with
    | none => exact ⟨rfl, rfl⟩
    | some ys =>
      cases hx : pyFloat? xs with
      | none => simp [annotate_click, hx]
      | some xv =>
        cases hy : pyFloat? ys with
        | none => simp [annotate_click, hx, hy]
        | some yv => simp [annotate_click, hx, hy]

theorem annotate_move_dims (x y : Option (List Char)) (img : Image) :
    (annotate_move x y img).1.width = img.width ∧
    (annotate_move x y img).1.height = img.height := by
  cases x with
  | none => exact ⟨rfl, rfl⟩
  | some xs =>
    cases y with
    | none => exact ⟨rfl, rfl⟩
    | some ys =>
      cases hx : pyFloat? xs with
      | none => simp [annotate_move, hx]
      | some xv =>
        cases hy : pyFloat? ys with
        | none => simp [annotate_move, hx, hy]
        | some yv => simp [annotate_move, hx, hy]

theorem annotate_scroll_dims (T : Trig) (x y : ℚ) (img : Image) :
    (annotate_scroll T x y img).1.width = img.width ∧
    (annotate_scroll T x y img).1.height = img.height := by
  simp only [annotate_scroll]
  split <;> exact ⟨rfl, rfl⟩

theorem stepAction_dims (T : Trig) (st : Image × Option Bool) (action : List Char) :
    (stepAction T st action).1.width = st.1.width ∧
    (stepAction T st action).1.height = st.1.height := by
  unfold stepAction
  split
  · rcases he : extract_x_y action with _ | ⟨xc, yc⟩ <;>
      simp only [he] <;>
      exact ⟨(annotate_click_dims _ _ _).1, (annotate_click_dims _ _ _).2⟩
  · split
    · rcases he : extract_x_y action with _ | ⟨xc, yc⟩ <;>
        simp only [he] <;>
        exact ⟨(annotate_move_dims _ _ _).1, (annotate_move_dims _ _ _).2⟩
    · split
      · exact ⟨(annotate_scroll_dims _ _ _ _).1, (annotate_scroll_dims _ _ _ _).2⟩
      · exact ⟨rfl, rfl⟩

theorem foldl_stepAction_dims (T : Trig) (lines : List (List Char)) :
    ∀ st : Image × Option Bool,
      (lines.foldl (stepAction T) st).1.width = st.1.width ∧
      (lines.foldl (stepAction T) st).1.height = st.1.height := by
  induction lines with
  | nil => intro st; exact ⟨rfl, rfl⟩
  | cons l ls ih =>
    intro st
    simp only [List.foldl_cons]
    obtain ⟨hw, hh⟩ := ih (stepAction T st l)
    obtain ⟨hw2, hh2⟩ := stepAction_dims T st l
    exact ⟨hw.trans hw2, hh.trans hh2⟩

/-! ### Line splitting and prefix facts -/

theorem splitLines_no_newline (cs : List Char) (h : '\n' ∉ cs) : splitLines cs = [cs] := by
  induction cs with
  | nil => rfl
  | cons c rest ih =>
    have hc : c ≠ '\n' := fun e => h (e ▸ List.mem_cons_self c rest)
    have hr : '\n' ∉ rest := fun hm => h (List.mem_cons_of_mem c hm)
    simp [splitLines, ih hr, hc]

/-- A line starting with the moveTo prefix does not start with the click
prefix. -/
theorem not_click_prefix_of_moveTo (cs : List Char)
    (h : (chars "pyautogui.moveTo").isPrefixOf cs = true) :
    (chars "pyautogui.click").isPrefixOf cs = false := by
  rw [List.isPrefixOf_iff_prefix] at h
  obtain ⟨t, ht⟩ := h
  rcases Bool.eq_false_or_eq_true ((chars "pyautogui.click").isPrefixOf cs) with htr | hf
  · exfalso
    rw [List.isPrefixOf_iff_prefix] at htr
    obtain ⟨u, hu⟩ := htr
    rw [← ht] at hu
    have h1 : (chars "pyautogui.click" ++ u)[10]? = some 'c' := by
      rw [List.getElem?_append_left (by decide)]
      rfl
    have h2 : (chars "pyautogui.moveTo" ++ t)[10]? = some 'm' := by
      rw [List.getElem?_append_left (by decide)]
      rfl
    rw [hu, h2] at h1
    exact absurd h1 (by decide)
  · exact hf

/-! ### Scaling-factor analysis -/

theorem minO_le_left (a : ℚ) (o : Option ℚ) : minO a o ≤ a := by
  cases o with
  | none => exact le_rfl
  | some b => exact min_le_left a b

theorem minO_le_some (a b : ℚ) (o : Option ℚ) (h : o = some b) : minO a o ≤ b := by
  subst h
  exact min_le_right a b

theorem minO_pos (a : ℚ) (o : Option ℚ) (ha : 0 < a)
    (ho : ∀ b, o = some b → 0 < b) : 0 < minO a o := by
  cases o with
  | none => exact ha
  | some b => exact lt_min ha (ho b rfl)

/-- C3 (amended): on an image of width and height at least 32, the scaling
factor computed at the image center `(W//2, H//2)` with margin 15 lies in
`(0, 1]` — the arrow is only ever shrunk — and the scaled endpoint
`center + f·(dx, dy)` stays at least 15 px from every edge the vector points
toward.  The size hypothesis is forced: on a 20×20 image the factor is `-5`
(see the counterexample theorem). -/
theorem compute_scaling_factor_bounds (W H : ℕ) (dx dy : ℚ) (hW : 32 ≤ W) (hH : 32 ≤ H) :
    0 < compute_scaling_factor ((W / 2 : ℕ) : ℚ) ((H / 2 : ℕ) : ℚ) dx dy W H 15 ∧
    compute_scaling_factor ((W / 2 : ℕ) : ℚ) ((H / 2 : ℕ) : ℚ) dx dy W H 15 ≤ 1 ∧
    (0 < dx → ((W / 2 : ℕ) : ℚ) +
      compute_scaling_factor ((W / 2 : ℕ) : ℚ) ((H / 2 : ℕ) : ℚ) dx dy W H 15 * dx ≤
      (W : ℚ) - 15) ∧
    (dx < 0 → (15 : ℚ) ≤ ((W / 2 : ℕ) : ℚ) +
      compute_scaling_factor ((W / 2 : ℕ) : ℚ) ((H / 2 : ℕ) : ℚ) dx dy W H 15 * dx) ∧
    (0 < dy → ((H / 2 : ℕ) : ℚ) +
      compute_scaling_factor ((W / 2 : ℕ) : ℚ) ((H / 2 : ℕ) : ℚ) dx dy W H 15 * dy ≤
      (H : ℚ) - 15) ∧
    (dy < 0 → (15 : ℚ) ≤ ((H / 2 : ℕ) : ℚ) +
      compute_scaling_factor ((W / 2 : ℕ) : ℚ) ((H / 2 : ℕ) : ℚ) dx dy W H 15 * dy) := by
  have hcx1 : (15 : ℚ) < ((W / 2 : ℕ) : ℚ) := by
    have h : 16 ≤ W / 2 := by omega
    have h2 : (16 : ℚ) ≤ ((W / 2 : ℕ) : ℚ) := by exact_mod_cast h
    linarith
  have hcx2 : ((W / 2 : ℕ) : ℚ) < (W : ℚ) - 15 := by
    have h : W / 2 + 16 ≤ W := by omega
    have h2 : ((W / 2 : ℕ) : ℚ) + 16 ≤ (W : ℚ) := by exact_mod_cast h
    linarith
  have hcy1 : (15 : ℚ) < ((H / 2 : ℕ) : ℚ) := by
    have h : 16 ≤ H / 2 := by omega
    have h2 : (16 : ℚ) ≤ ((H / 2 : ℕ) : ℚ) := by exact_mod_cast h
    linarith
  have hcy2 : ((H / 2 : ℕ) : ℚ) < (H : ℚ) - 15 := by
    have h : H / 2 + 16 ≤ H := by omega
    have h2 : ((H / 2 : ℕ) : ℚ) + 16 ≤ (H : ℚ) := by exact_mod_cast h
    linarith
  simp only [compute_scaling_factor]
  set cx : ℚ := ((W / 2 : ℕ) : ℚ) with hcxdef
  set cy : ℚ := ((H / 2 : ℕ) : ℚ) with hcydef
  set fx : Option ℚ :=
    (if dx > 0 then some (((W : ℚ) - 15 - cx) / dx)
     else if dx < 0 then some ((cx - 15) / |dx|) else none) with hfxdef
  set fy : Option ℚ :=
    (if dy > 0 then some (((H : ℚ) - 15 - cy) / dy)
     else if dy < 0 then some ((cy - 15) / |dy|) else none) with hfydef
  have hfxpos : ∀ b, fx = some b → 0 < b := by
    intro b hb
    rw [hfxdef] at hb
    split at hb
    · rename_i hdx
      cases hb
      exact div_pos (by linarith) hdx
    · split at hb
      · rename_i hdx
        cases hb
        exact div_pos (by linarith) (abs_pos.mpr (ne_of_lt hdx))
      · cases hb
  have hfypos : ∀ b, fy = some b → 0 < b := by
    intro b hb
    rw [hfydef] at hb
    split at hb
    · rename_i hdy
      cases hb
      exact div_pos (by linarith) hdy
    · split at hb
      · rename_i hdy
        cases hb
        exact div_pos (by linarith) (abs_pos.mpr (ne_of_lt hdy))
      · cases hb
  have hpos : 0 < minO (minO 1 fx) fy :=
    minO_pos _ _ (minO_pos _ _ one_pos hfxpos) hfypos
  have hle1 : minO (minO 1 fx) fy ≤ 1 :=
    le_trans (minO_le_left _ _) (minO_le_left _ _)
  refine ⟨hpos, hle1, ?_, ?_, ?_, ?_⟩
  · intro hdx
    have hfx : fx = some (((W : ℚ) - 15 - cx) / dx) := by
      rw [hfxdef, if_pos hdx]
    have hf : minO (minO 1 fx) fy ≤ ((W : ℚ) - 15 - cx) / dx :=
      le_trans (minO_le_left _ _) (minO_le_some _ _ _ hfx)
    have h2 : minO (minO 1 fx) fy * dx ≤ (((W : ℚ) - 15 - cx) / dx) * dx :=
      mul_le_mul_of_nonneg_right hf (le_of_lt hdx)
    rw [div_mul_cancel₀ _ (ne_of_gt hdx)] at h2
    linarith
  · intro hdx
    have hfx : fx = some ((cx - 15) / |dx|) := by
      rw [hfxdef, if_neg (by linarith), if_pos hdx]
    have hf : minO (minO 1 fx) fy ≤ (cx - 15) / |dx| :=
      le_trans (minO_le_left _ _) (minO_le_some _ _ _ hfx)
    have h2 : (cx - 15) / |dx| * dx ≤ minO (minO 1 fx) fy * dx :=
      mul_le_mul_of_nonpos_right hf (le_of_lt hdx)
    have h3 : (cx - 15) / |dx| * dx = -(cx - 15) := by
      rw [abs_of_neg hdx, div_neg, neg_mul, div_mul_cancel₀ _ (ne_of_lt hdx)]
    rw [h3] at h2
    linarith
  · intro hdy
    have hfy : fy = some (((H : ℚ) - 15 - cy) / dy) := by
      rw [hfydef, if_pos hdy]
    have hf : minO (minO 1 fx) fy ≤ ((H : ℚ) - 15 - cy) / dy :=
      minO_le_some _ _ _ hfy
    have h2 : minO (minO 1 fx) fy * dy ≤ (((H : ℚ) - 15 - cy) / dy) * dy :=
      mul_le_mul_of_nonneg_right hf (le_of_lt hdy)
    rw [div_mul_cancel₀ _ (ne_of_gt hdy)] at h2
    linarith
  · intro hdy
    have hfy : fy = some ((cy - 15) / |dy|) := by
      rw [hfydef, if_neg (by linarith), if_pos hdy]
    have hf : minO (minO 1 fx) fy ≤ (cy - 15) / |dy| :=
      minO_le_some _ _ _ hfy
    have h2 : (cy - 15) / |dy| * dy ≤ minO (minO 1 fx) fy * dy :=
      mul_le_mul_of_nonpos_right hf (le_of_lt hdy)
    have h3 : (cy - 15) / |dy| * dy = -(cy - 15) := by
      rw [abs_of_neg hdy, div_neg, neg_mul, div_mul_cancel₀ _ (ne_of_lt hdy)]
    rw [h3] at h2
    linarith

/-- With zero offsets `annotate_scroll` still draws: six line segments and the
label, and reports success on any image of nonzero width. -/
theorem annotate_scroll_draws (T : Trig) (x y : ℚ) (img : Image) (hw : img.width ≠ 0) :
    (annotate_scroll T x y img).1.ops.length = img.ops.length + 7 ∧
    (annotate_scroll T x y img).2 = true := by
  simp [annotate_scroll, hw]

/-! ### Claim theorems -/

/-- C1: the claim says `annotate_action` always returns an (image, flag) pair
and never propagates an exception, even when no line starts with
`pyautogui.click`, `pyautogui.moveTo` or `pyautogui.scroll`.  The code
violates this: on such input the `success` local is never assigned and the
final `return` raises `UnboundLocalError` (modelled by `none`), contradicting
the function's own `-> Tuple[Image, bool]` annotation.  This theorem evaluates
the embedded code at the failing input. -/
theorem annotate_action_unassigned_success_raises :
    annotate_action trivialTrig "pyautogui.press(keys=[enter])" (Image.mk 1200 720 []) =
      none := rfl

/-- C2: for parsed click coordinates `X, Y ∈ [0,1]`, the marker is the four
concentric ellipses centered at `(int(X·W), int(Y·H))` — within one pixel of
`(round(X·W), round(Y·H))` — with the main ring radius `min(W,H) // 15` and
the halo radius two more (both visible in `ringOps`); in particular the line
`pyautogui.click(x=0.5,y=0.5)` on a 1200×720 image gives center `(600, 360)`
and radius `48`. -/
theorem annotate_click_marker_geometry (xs ys : List Char) (xv yv : ℚ) (img : Image)
    (hx : pyFloat? xs = some xv) (hy : pyFloat? ys = some yv)
    (hx0 : 0 ≤ xv) (_hx1 : xv ≤ 1) (hy0 : 0 ≤ yv) (_hy1 : yv ≤ 1) :
    annotate_click (some xs) (some ys) img =
      (⟨img.width, img.height, img.ops ++
        (ringOps (pyInt (xv * img.width)) (pyInt (yv * img.height))
            (min img.width img.height / 15) ++
         labelOps (pyInt (xv * img.width)) (pyInt (yv * img.height)) "Click"
            img.width img.height)⟩, true) ∧
    |pyInt (xv * img.width) - round (xv * (img.width : ℚ))| ≤ 1 ∧
    |pyInt (yv * img.height) - round (yv * (img.height : ℚ))| ≤ 1 ∧
    extract_x_y (chars "pyautogui.click(x=0.5,y=0.5)") = some (chars "0.5", chars "0.5") ∧
    pyFloat? (chars "0.5") = some (1 / 2) ∧
    pyInt ((1 / 2) * ((1200 : ℕ) : ℚ)) = 600 ∧ pyInt ((1 / 2) * ((720 : ℕ) : ℚ)) = 360 ∧
    min 1200 720 / 15 = 48 := by
  refine ⟨annotate_click_eq xs ys xv yv img hx hy, ?_, ?_, by decide, pyFloat_half,
    ?_, ?_, by norm_num⟩
  · exact pyInt_round_dist _ (mul_nonneg hx0 (Nat.cast_nonneg _))
  · exact pyInt_round_dist _ (mul_nonneg hy0 (Nat.cast_nonneg _))
  · rw [show (1 / 2 : ℚ) * ((1200 : ℕ) : ℚ) = ((600 : ℤ) : ℚ) by norm_num, pyInt_intCast]
  · rw [show (1 / 2 : ℚ) * ((720 : ℕ) : ℚ) = ((360 : ℤ) : ℚ) by norm_num, pyInt_intCast]

/-- C2 witness: the claim theorem applied to the concrete example line. -/
theorem annotate_click_marker_geometry_witness :
    annotate_click (some (chars "0.5")) (some (chars "0.5")) (Image.mk 1200 720 []) =
      (Image.mk 1200 720 (ringOps 600 360 48 ++ labelOps 600 360 "Click" 1200 720), true) := by
  have h1 : pyFloat? (chars "0.5") = some (ratOfParts false ['0'] ['5']) := rfl
  have h0 : (0 : ℚ) ≤ ratOfParts false ['0'] ['5'] := by
    rw [ratOfParts_half]
    norm_num
  have hle : ratOfParts false ['0'] ['5'] ≤ 1 := by
    rw [ratOfParts_half]
    norm_num
  have main := (annotate_click_marker_geometry (chars "0.5") (chars "0.5") _ _
    (Image.mk 1200 720 []) h1 h1 h0 hle h0 hle).1
  rw [main]
  have e1 : pyInt (ratOfParts false ['0'] ['5'] * (((Image.mk 1200 720 []).width : ℕ) : ℚ)) =
      600 := by
    rw [ratOfParts_half, show (1 / 2 : ℚ) * (((Image.mk 1200 720 []).width : ℕ) : ℚ) =
      ((600 : ℤ) : ℚ) by norm_num, pyInt_intCast]
  have e2 : pyInt (ratOfParts false ['0'] ['5'] * (((Image.mk 1200 720 []).height : ℕ) : ℚ)) =
      360 := by
    rw [ratOfParts_half, show (1 / 2 : ℚ) * (((Image.mk 1200 720 []).height : ℕ) : ℚ) =
      ((360 : ℤ) : ℚ) by norm_num, pyInt_intCast]
  rw [e1, e2]
  rfl

/-- C3 counterexample: the claim asserts `f ∈ (0, 1]` for every image; on a
20×20 image (center `(10, 10) = (20//2, 20//2)`, margin 15) with vector
`(-1, 0)` the code returns `-5`. -/
theorem compute_scaling_factor_not_positive :
    compute_scaling_factor ((20 / 2 : ℕ) : ℚ) ((20 / 2 : ℕ) : ℚ) (-1) 0 20 20 15 = -5 ∧
    ¬ (0 < compute_scaling_factor ((20 / 2 : ℕ) : ℚ) ((20 / 2 : ℕ) : ℚ) (-1) 0 20 20 15) := by
  have h : compute_scaling_factor ((20 / 2 : ℕ) : ℚ) ((20 / 2 : ℕ) : ℚ) (-1) 0 20 20 15 =
      -5 := by
    norm_num [compute_scaling_factor, minO, min_def]
  exact ⟨h, by rw [h]; norm_num⟩

/-- C3 witness: the amended claim applied to a concrete 100×100 image and the
vector `(2, -3)`. -/
theorem compute_scaling_factor_bounds_witness :
    0 < compute_scaling_factor ((100 / 2 : ℕ) : ℚ) ((100 / 2 : ℕ) : ℚ) 2 (-3) 100 100 15 ∧
    compute_scaling_factor ((100 / 2 : ℕ) : ℚ) ((100 / 2 : ℕ) : ℚ) 2 (-3) 100 100 15 ≤ 1 ∧
    (0 < (2 : ℚ) → ((100 / 2 : ℕ) : ℚ) +
      compute_scaling_factor ((100 / 2 : ℕ) : ℚ) ((100 / 2 : ℕ) : ℚ) 2 (-3) 100 100 15 * 2 ≤
      ((100 : ℕ) : ℚ) - 15) ∧
    ((2 : ℚ) < 0 → (15 : ℚ) ≤ ((100 / 2 : ℕ) : ℚ) +
      compute_scaling_factor ((100 / 2 : ℕ) : ℚ) ((100 / 2 : ℕ) : ℚ) 2 (-3) 100 100 15 * 2) ∧
    (0 < (-3 : ℚ) → ((100 / 2 : ℕ) : ℚ) +
      compute_scaling_factor ((100 / 2 : ℕ) : ℚ) ((100 / 2 : ℕ) : ℚ) 2 (-3) 100 100 15 *
        (-3) ≤ ((100 : ℕ) : ℚ) - 15) ∧
    ((-3 : ℚ) < 0 → (15 : ℚ) ≤ ((100 / 2 : ℕ) : ℚ) +
      compute_scaling_factor ((100 / 2 : ℕ) : ℚ) ((100 / 2 : ℕ) : ℚ) 2 (-3) 100 100 15 *
        (-3)) :=
  compute_scaling_factor_bounds 100 100 2 (-3) (by norm_num) (by norm_num)

/-- C4 counterexample: the claim says every float-syntax numeral is accepted,
including integer-valued ones such as `page=-1`; but both scroll regexes
require a decimal point (`-?\d+\.\d+`), so `pyautogui.scroll(page=-1)` yields
`(0, 0)` instead of the claimed `(0, -(-1)·720) = (0, 720)`. -/
theorem convert_scroll_integer_page_numeral :
    convert_scroll (chars "pyautogui.scroll(page=-1)") (Image.mk 1200 720 []) = (0, 0) ∧
    -(-1 : ℚ) * 720 = 720 ∧ (0 : ℚ) ≠ (720 : ℚ) := by
  refine ⟨rfl, by norm_num, by norm_num⟩

/-- C4 (amended): for scroll lines of the documented grammar whose numerals
contain a decimal point (`-?\d+\.\d+`, the only shape the source's patterns
extract), `convert_scroll` returns `x = horizontal·width` (`0` when absent)
and `y = -page·height`, in both keyed and positional form; in particular
`pyautogui.scroll(page=-0.5)` on a 1200×720 image yields `(0, 360)`.
Integer-valued numerals without a decimal point are not extracted (see the
counterexample). -/
theorem convert_scroll_decimal_grammar :
    (∀ ps img, KvNum ps →
      convert_scroll (chars "pyautogui.scroll(page=" ++ (ps ++ [')'])) img =
        (0, -(pyFloatD ps) * img.height)) ∧
    (∀ ps hs img, KvNum ps → KvNum hs →
      convert_scroll (chars "pyautogui.scroll(page=" ++
          (ps ++ (',' :: ' ' :: ('h' :: 'o' :: 'r' :: 'i' :: 'z' :: 'o' :: 'n' :: 't' :: 'a' ::
            'l' :: '=' :: (hs ++ [')']))))) img =
        (pyFloatD hs * img.width, -(pyFloatD ps) * img.height)) ∧
    (∀ ps img, KvNum ps →
      convert_scroll (chars "pyautogui.scroll(" ++ (ps ++ [')'])) img =
        (0, -(pyFloatD ps) * img.height)) ∧
    (∀ ps hs img, KvNum ps → KvNum hs →
      convert_scroll (chars "pyautogui.scroll(" ++ (ps ++ (',' :: ' ' :: (hs ++ [')'])))) img =
        (pyFloatD hs * img.width, -(pyFloatD ps) * img.height)) ∧
    convert_scroll (chars "pyautogui.scroll(page=-0.5)") (Image.mk 1200 720 []) = (0, 360) := by
  refine ⟨fun ps img hp => convert_scroll_page_only ps img hp,
    fun ps hs img hp hh => convert_scroll_page_horiz ps hs img hp hh,
    fun ps img hp => convert_scroll_pos1 ps img hp,
    fun ps hs img hp hh => convert_scroll_pos2 ps hs img hp hh, ?_⟩
  have hp : KvNum (chars "-0.5") :=
    ⟨['-'], ['0'], ['5'], Or.inr rfl, by decide, by decide, by decide, by decide, rfl⟩
  have h := convert_scroll_page_only (chars "-0.5") (Image.mk 1200 720 []) hp
  rw [show chars "pyautogui.scroll(page=-0.5)" =
    chars "pyautogui.scroll(page=" ++ (chars "-0.5" ++ [')']) from rfl, h, pyFloatD_neg_half]
  norm_num

/-- C5: a single action line starting with `pyautogui.click` or
`pyautogui.moveTo` whose arguments do not match the `x=`/`y=` numeric pattern
makes `extract_x_y` yield absent values; the `float(None)` conversion raises
inside the renderer, is caught there, and `annotate_action` returns the
untouched image with a `false` success flag instead of propagating the
exception. -/
theorem annotate_action_parse_miss_false (T : Trig) (line : String) (img : Image)
    (hn : '\n' ∉ line.toList)
    (hp : (chars "pyautogui.click").isPrefixOf line.toList = true ∨
          (chars "pyautogui.moveTo").isPrefixOf line.toList = true)
    (he : extract_x_y line.toList = none) :
    annotate_action T line img = some (img, false) := by
  unfold annotate_action
  rw [splitLines_no_newline _ hn]
  simp only [List.foldl_cons, List.foldl_nil]
  have he2 : extract_x_y line.data = none := he
  rcases hp with hp | hp
  · have hp' : chars "pyautogui.click" <+: line.data :=
      List.isPrefixOf_iff_prefix.mp hp
    have hc := annotate_click_fail none none img trivial
    simp [stepAction, hp', he2, hc]
  · have hp' : chars "pyautogui.moveTo" <+: line.data :=
      List.isPrefixOf_iff_prefix.mp hp
    have hnc : ¬ chars "pyautogui.click" <+: line.data := by
      intro hcontra
      have hb : (chars "pyautogui.click").isPrefixOf line.toList = true :=
        List.isPrefixOf_iff_prefix.mpr hcontra
      rw [not_click_prefix_of_moveTo _ hp] at hb
      exact Bool.false_ne_true hb
    have hm := annotate_move_fail none none img trivial
    simp [stepAction, hp', hnc, he2, hm]

/-- C5 witness: the malformed line of the claim, `pyautogui.click(x=abc,y=2)`,
on a 1200×720 image. -/
theorem annotate_action_parse_miss_false_witness :
    annotate_action trivialTrig "pyautogui.click(x=abc,y=2)" (Image.mk 1200 720 []) =
      some (Image.mk 1200 720 [], false) :=
  annotate_action_parse_miss_false trivialTrig "pyautogui.click(x=abc,y=2)"
    (Image.mk 1200 720 []) (by decide) (Or.inl (by decide)) (by decide)

/-- C6 counterexample: the claim says a `pyautogui.scroll` line containing no
decimal numbers leaves the image undrawn; in fact the offsets are `(0, 0)` but
the renderer still issues seven draw calls (six degenerate arrow lines and the
label) and reports success. -/
theorem annotate_action_scroll_no_numbers_draws :
    ((annotate_action trivialTrig "pyautogui.scroll()" (Image.mk 1200 720 [])).map
      fun r => (r.1.ops.length, r.2)) = some (7, true) ∧ (7 : ℕ) ≠ 0 := by
  exact ⟨rfl, by norm_num⟩

/-- C6 (amended): a parse miss on a scroll line is non-fatal and yields zero
offsets, but the line is not left undrawn: `annotate_scroll 0 0` still appends
seven draw operations (a degenerate arrow and its label) and returns
`success = true` whenever the image width is nonzero. -/
theorem convert_scroll_parse_miss_draws (T : Trig) (line : List Char) (img : Image)
    (hkv : findAllKv line = []) (hnum : findAllNum line = []) (hw : img.width ≠ 0) :
    convert_scroll line img = (0, 0) ∧
    (annotate_scroll T 0 0 img).1.ops.length = img.ops.length + 7 ∧
    (annotate_scroll T 0 0 img).2 = true := by
  refine ⟨?_, (annotate_scroll_draws T 0 0 img hw).1, (annotate_scroll_draws T 0 0 img hw).2⟩
  simp [convert_scroll, hkv, hnum]

/-- C6 witness: the amended claim applied to the concrete numberless scroll
line on a 1200×720 image. -/
theorem convert_scroll_parse_miss_draws_witness :
    convert_scroll (chars "pyautogui.scroll()") (Image.mk 1200 720 []) = (0, 0) ∧
    (annotate_scroll trivialTrig 0 0 (Image.mk 1200 720 [])).1.ops.length =
      (Image.mk 1200 720 []).ops.length + 7 ∧
    (annotate_scroll trivialTrig 0 0 (Image.mk 1200 720 [])).2 = true :=
  convert_scroll_parse_miss_draws trivialTrig (chars "pyautogui.scroll()")
    (Image.mk 1200 720 []) rfl rfl (by norm_num)

/-- The label-placement rule exactly as the claim states it: both axes of the
anchor must be `≥ 0` and `<` the image dimension.  Formalized from the claim's
words, to be compared with the code's `labelAnchor`. -/
def claimedLabelAnchor (px py : ℤ) (W H : ℕ) : Option (ℤ × ℤ) :=
  (([((10 : ℤ), (10 : ℤ)), (-10, -10), (10, -10), (-10, 10)]).find? fun d =>
    decide (0 ≤ px + d.1) && decide (px + d.1 < (W : ℤ)) &&
    decide (0 ≤ py + d.2) && decide (py + d.2 < (H : ℤ))).map fun d => (px + d.1, py + d.2)

/-- Recognizer for label draw calls. -/
def isTextOp : DrawOp → Bool
  | DrawOp.text _ _ _ _ _ _ => true
  | _ => false

/-- C7 counterexample: for the marker at `(-50, -50)` on a 100×100 image the
claimed rule places no label (every candidate anchor has a negative
coordinate), yet the code draws the label at `(-40, -40)`: the source checks
only the upper bound for a `+10` offset and only the lower bound for a `-10`
offset, never both. -/
theorem label_rule_as_claimed_fails :
    claimedLabelAnchor (-50) (-50) 100 100 = none ∧
    ((annotate_click (some (chars "-0.5")) (some (chars "-0.5"))
        (Image.mk 100 100 [])).1.ops.filter isTextOp) =
      [DrawOp.text (-40) (-40) "Click" "red" "black" 2] := by
  constructor
  · decide
  · have main := annotate_click_eq (chars "-0.5") (chars "-0.5") _ _ (Image.mk 100 100 [])
      pyFloat_neg_half pyFloat_neg_half
    rw [main]
    have e1 : pyInt (-(1 / 2) * (((Image.mk 100 100 []).width : ℕ) : ℚ)) = -50 := by
      rw [show (-(1 / 2) : ℚ) * (((Image.mk 100 100 []).width : ℕ) : ℚ) = ((-50 : ℤ) : ℚ)
        by norm_num, pyInt_intCast]
    rw [e1]
    rfl

/-- C7 (amended): the label is placed at the first of the four candidate
offsets `(+10,+10), (−10,−10), (+10,−10), (−10,+10)`, in that order, whose
anchor passes the bound check the code actually performs on each axis: for a
`+10` offset only `anchor < dimension`, for a `−10` offset only `anchor > 0`;
if no candidate qualifies, no label is drawn.  This holds for the click and
the move renderer alike. -/
theorem label_first_fit_spec (xs ys : List Char) (xv yv : ℚ) (img : Image)
    (hx : pyFloat? xs = some xv) (hy : pyFloat? ys = some yv) :
    (annotate_click (some xs) (some ys) img).1.ops =
      img.ops ++ (ringOps (pyInt (xv * img.width)) (pyInt (yv * img.height))
          (min img.width img.height / 15) ++
        (match labelAnchor (pyInt (xv * img.width)) (pyInt (yv * img.height))
            img.width img.height with
         | some a => [DrawOp.text a.1 a.2 "Click" "red" "black" 2]
         | none => [])) ∧
    (annotate_move (some xs) (some ys) img).1.ops =
      img.ops ++ (ringOps (pyInt (xv * img.width)) (pyInt (yv * img.height))
          (min img.width img.height / 15) ++
        (match labelAnchor (pyInt (xv * img.width)) (pyInt (yv * img.height))
            img.width img.height with
         | some a => [DrawOp.text a.1 a.2 "MoveTo" "red" "black" 2]
         | none => [])) := by
  constructor
  · rw [annotate_click_eq xs ys xv yv img hx hy]
    show img.ops ++ (ringOps _ _ _ ++ labelOps _ _ "Click" img.width img.height) = _
    rw [labelOps_eq_anchor]
  · rw [annotate_move_eq xs ys xv yv img hx hy]
    show img.ops ++ (ringOps _ _ _ ++ labelOps _ _ "MoveTo" img.width img.height) = _
    rw [labelOps_eq_anchor]

/-- C7 witness: the amended rule at the centered click of the example line. -/
theorem label_first_fit_spec_witness :
    (annotate_click (some (chars "0.5")) (some (chars "0.5"))
        (Image.mk 1200 720 [])).1.ops =
      [] ++ (ringOps (pyInt ((1 / 2) * (((Image.mk 1200 720 []).width : ℕ) : ℚ)))
          (pyInt ((1 / 2) * (((Image.mk 1200 720 []).height : ℕ) : ℚ))) (min 1200 720 / 15) ++
        (match labelAnchor (pyInt ((1 / 2) * (((Image.mk 1200 720 []).width : ℕ) : ℚ)))
            (pyInt ((1 / 2) * (((Image.mk 1200 720 []).height : ℕ) : ℚ))) 1200 720 with
         | some a => [DrawOp.text a.1 a.2 "Click" "red" "black" 2]
         | none => [])) :=
  (label_first_fit_spec (chars "0.5") (chars "0.5") (1 / 2) (1 / 2) (Image.mk 1200 720 [])
    pyFloat_half pyFloat_half).1

/-- C8: whenever `annotate_action` returns, the returned image has exactly the
pixel dimensions of the image passed in: every draw call only appends to the
operation list. -/
theorem annotate_action_preserves_dims (T : Trig) (actions : String) (img im : Image)
    (ok : Bool) (h : annotate_action T actions img = some (im, ok)) :
    im.width = img.width ∧ im.height = img.height := by
  unfold annotate_action at h
  rcases hf : (splitLines actions.toList).foldl (stepAction T) (img, none) with ⟨im2, s⟩
  rw [hf] at h
  cases s with
  | none => exact absurd h (by simp)
  | some ok2 =>
    simp only [Option.some.injEq, Prod.mk.injEq] at h
    obtain ⟨h1, h2⟩ := h
    subst h1
    have hd := foldl_stepAction_dims T (splitLines actions.toList) (img, none)
    rw [hf] at hd
    exact hd

/-- C8 witness: the preservation theorem applied to a concrete run. -/
theorem annotate_action_preserves_dims_witness :
    (Image.mk 1200 720 []).width = (Image.mk 1200 720 []).width ∧
    (Image.mk 1200 720 []).height = (Image.mk 1200 720 []).height := by
  have h : annotate_action trivialTrig "pyautogui.click(x=abc,y=2)"
      (Image.mk 1200 720 []) = some (Image.mk 1200 720 [], false) := by decide
  exact annotate_action_preserves_dims trivialTrig _ _ _ _ h

/-- C9 counterexample: the claim says the `(image, success)` results of
`annotate_click` and `annotate_move` agree for all inputs; at the centered
click on a 100×100 image the two outputs differ (the label text differs). -/
theorem annotate_click_move_outputs_differ :
    annotate_click (some (chars "0.5")) (some (chars "0.5")) (Image.mk 100 100 []) ≠
    annotate_move (some (chars "0.5")) (some (chars "0.5")) (Image.mk 100 100 []) := by
  have h1 := annotate_click_eq (chars "0.5") (chars "0.5") _ _ (Image.mk 100 100 [])
    pyFloat_half pyFloat_half
  have h2 := annotate_move_eq (chars "0.5") (chars "0.5") _ _ (Image.mk 100 100 [])
    pyFloat_half pyFloat_half
  rw [h1, h2]
  have e1 : pyInt ((1 / 2) * (((Image.mk 100 100 []).width : ℕ) : ℚ)) = 50 := by
    rw [show ((1 : ℚ) / 2) * (((Image.mk 100 100 []).width : ℕ) : ℚ) = ((50 : ℤ) : ℚ)
      by norm_num, pyInt_intCast]
  rw [e1]
  decide

/-- C9 (amended): the two renderers compute the same geometry and issue the
same draw operations in the same colors; the appended operations agree after
renaming the label string "Click" to "MoveTo", and the success flags agree for
all inputs. -/
theorem annotate_move_is_click_relabel (x y : Option (List Char)) (img : Image) :
    (annotate_move x y img).2 = (annotate_click x y img).2 ∧
    ∃ tail, (annotate_click x y img).1.ops = img.ops ++ tail ∧
      (annotate_move x y img).1.ops = img.ops ++ tail.map relabelMove := by
  cases x with
  | none =>
    cases y <;> exact ⟨rfl, [], by simp [annotate_click], by simp [annotate_move]⟩
  | some xs =>
    cases y with
    | none => exact ⟨rfl, [], by simp [annotate_click], by simp [annotate_move]⟩
    | some ys =>
      cases hx : pyFloat? xs with
      | none =>
        rw [annotate_click_fail (some xs) (some ys) img (Or.inl hx),
          annotate_move_fail (some xs) (some ys) img (Or.inl hx)]
        exact ⟨rfl, [], by simp, by simp⟩
      | some xv =>
        cases hy : pyFloat? ys with
        | none =>
          rw [annotate_click_fail (some xs) (some ys) img (Or.inr hy),
            annotate_move_fail (some xs) (some ys) img (Or.inr hy)]
          exact ⟨rfl, [], by simp, by simp⟩
        | some yv =>
          rw [annotate_click_eq xs ys xv yv img hx hy, annotate_move_eq xs ys xv yv img hx hy]
          refine ⟨rfl, ringOps (pyInt (xv * img.width)) (pyInt (yv * img.height))
              (min img.width img.height / 15) ++
            labelOps (pyInt (xv * img.width)) (pyInt (yv * img.height)) "Click"
              img.width img.height, rfl, ?_⟩
          rw [List.map_append, ringOps_relabel, labelOps_relabel]

/-- C10: whenever the `x=`/`y=` arguments of a click or moveTo line are finite
decimal numerals, the renderers succeed with the marker centered at
`(int(x·W), int(y·H))` — no range check restricts `(x, y)` to `[0,1]²`, so the
center may lie entirely outside the visible image (see the witness at
`x=3.5, y=-2.0`). -/
theorem renderer_accepts_out_of_range (xs ys : List Char) (xv yv : ℚ) (img : Image)
    (hx : pyFloat? xs = some xv) (hy : pyFloat? ys = some yv) :
    annotate_click (some xs) (some ys) img =
      (⟨img.width, img.height, img.ops ++
        (ringOps (pyInt (xv * img.width)) (pyInt (yv * img.height))
            (min img.width img.height / 15) ++
         labelOps (pyInt (xv * img.width)) (pyInt (yv * img.height)) "Click"
            img.width img.height)⟩, true) ∧
    annotate_move (some xs) (some ys) img =
      (⟨img.width, img.height, img.ops ++
        (ringOps (pyInt (xv * img.width)) (pyInt (yv * img.height))
            (min img.width img.height / 15) ++
         labelOps (pyInt (xv * img.width)) (pyInt (yv * img.height)) "MoveTo"
            img.width img.height)⟩, true) :=
  ⟨annotate_click_eq xs ys xv yv img hx hy, annotate_move_eq xs ys xv yv img hx hy⟩

/-- C10 witness: with `x=3.5` and `y=-2.0` on a 1200×720 image the renderer
succeeds and centers the marker at `(4200, -1440)`, entirely outside the
image. -/
theorem renderer_accepts_out_of_range_witness :
    annotate_click (some (chars "3.5")) (some (chars "-2.0")) (Image.mk 1200 720 []) =
      (Image.mk 1200 720
        (ringOps 4200 (-1440) 48 ++ labelOps 4200 (-1440) "Click" 1200 720), true) ∧
    ¬ (4200 < (1200 : ℤ)) ∧ ¬ ((0 : ℤ) ≤ -1440) := by
  have hx : pyFloat? (chars "3.5") = some (7 / 2) := by
    rw [show pyFloat? (chars "3.5") = some (ratOfParts false ['3'] ['5']) from rfl,
      ratOfParts_seven_halves]
  have hy : pyFloat? (chars "-2.0") = some (-2) := by
    rw [show pyFloat? (chars "-2.0") = some (ratOfParts true ['2'] ['0']) from rfl,
      ratOfParts_neg_two]
  have main := (renderer_accepts_out_of_range (chars "3.5") (chars "-2.0") _ _
    (Image.mk 1200 720 []) hx hy).1
  refine ⟨?_, by norm_num, by norm_num⟩
  rw [main]
  have e1 : pyInt ((7 / 2) * (((Image.mk 1200 720 []).width : ℕ) : ℚ)) = 4200 := by
    rw [show ((7 : ℚ) / 2) * (((Image.mk 1200 720 []).width : ℕ) : ℚ) = ((4200 : ℤ) : ℚ)
      by norm_num, pyInt_intCast]
  have e2 : pyInt ((-2 : ℚ) * (((Image.mk 1200 720 []).height : ℕ) : ℚ)) = -1440 := by
    rw [show ((-2 : ℚ)) * (((Image.mk 1200 720 []).height : ℕ) : ℚ) = ((-1440 : ℤ) : ℚ)
      by norm_num, pyInt_intCast]
  rw [e1, e2]
  rfl
